import Mathlib

/-!
# cs1550 — a two-level block file system over a single `.disk` file

A shallow embedding of `src/cs1550.c`.  The `.disk` file is a list of bytes,
a `FILE` stream is that list together with a file position, and the C structs
that are `fread`/`fwrite`n as whole 512-byte blocks are kept as their object
representation (a list of 512 bytes) with the fields read and written at the
offsets the packed layout gives them.

Conventions.
* A byte is a `Nat`; an `int`/`long` is an `Int` decoded from little-endian
  two's complement (`sizeof(int) = 4`, `sizeof(long) = sizeof(size_t) = 8`); the
  `errno.h` and `sys/stat.h` constants have their Linux values.
* A stream has one file position, used by reads and writes alike: a `fwrite`
  starts where the preceding `fread` stopped.
* A function returns `Except Fault α`: `.error` stands for an execution that has
  no defined return value in C (an array index outside its bounds,
  `fclose(NULL)`, signed overflow, a loop that does not stop within the fuel).
* A loop whose number of iterations the code bounds is a structural recursion
  on the iterations left; the one loop that need not stop takes fuel.
-/

namespace CS1550

/-! ## Constants of the source -/

/-- Macro `#define BLOCK_SIZE 512` -/
def BLOCK_SIZE : Nat := 512

/-- Macro `#define BITMAP_LAST (5*BLOCK_SIZE - 1)` -/
def BITMAP_LAST : Nat := 5 * BLOCK_SIZE - 1

/-- Macro `#define MAX_FILENAME 8` -/
def MAX_FILENAME : Nat := 8

/-- Macro `#define MAX_EXTENSION 3` -/
def MAX_EXTENSION : Nat := 3

/-- The value of `sizeof(int)`. -/
def SIZEOF_INT : Nat := 4

/-- The value of `sizeof(long)` and of `sizeof(size_t)` (LP64). -/
def SIZEOF_LONG : Nat := 8

/-- Macro `#define MAX_FILES_IN_DIR (BLOCK_SIZE - sizeof(int)) / ((MAX_FILENAME + 1) +
(MAX_EXTENSION + 1) + sizeof(size_t) + sizeof(long))` -/
def MAX_FILES_IN_DIR : Nat :=
  (BLOCK_SIZE - SIZEOF_INT) / ((MAX_FILENAME + 1) + (MAX_EXTENSION + 1) + SIZEOF_LONG + SIZEOF_LONG)

/-- Macro `#define MAX_DIRS_IN_ROOT (BLOCK_SIZE - sizeof(int)) / ((MAX_FILENAME + 1) + sizeof(long))` -/
def MAX_DIRS_IN_ROOT : Nat :=
  (BLOCK_SIZE - SIZEOF_INT) / ((MAX_FILENAME + 1) + SIZEOF_LONG)

/-- The `errno.h` value of `EPERM`. -/
def EPERM : Int := 1
/-- The `errno.h` value of `ENOENT`. -/
def ENOENT : Int := 2
/-- The `errno.h` value of `EEXIST`. -/
def EEXIST : Int := 17
/-- The `errno.h` value of `ENAMETOOLONG`. -/
def ENAMETOOLONG : Int := 36
/-- The `sys/stat.h` value of `S_IFDIR` (octal 040000). -/
def S_IFDIR : Nat := 16384
/-- The `sys/stat.h` value of `S_IFREG` (octal 0100000). -/
def S_IFREG : Nat := 32768

/-! ## Executions without a defined result -/

/-- Why an execution has no defined return value. -/
inductive Fault where
  /-- an array element outside the array's bounds is accessed -/
  | outOfBounds
  /-- `fclose` is called on the `NULL` that a failed `fopen` returned -/
  | nullStream
  /-- a signed multiplication leaves the range of `long` -/
  | overflow
  /-- a `char` array without a terminating NUL is used as a string -/
  | unterminated
  /-- a loop has not stopped within the fuel -/
  | timeout
  deriving DecidableEq, Repr

deriving instance DecidableEq for Except

/-! ## Bytes, little-endian integers, and byte ranges -/

/-- The `w` low bytes of `v`, least significant first. -/
def leBytes : Nat → Nat → List Nat
  | 0, _ => []
  | w + 1, v => (v % 256) :: leBytes w (v / 256)

/-- The number a little-endian byte sequence stands for. -/
def leNat : List Nat → Nat
  | [] => 0
  | b :: bs => b % 256 + 256 * leNat bs

/-- The object representation of a signed integer of `w` bytes. -/
def encodeInt (w : Nat) (v : Int) : List Nat :=
  leBytes w (v % (256 ^ w : Nat)).toNat

/-- The signed integer that `w` bytes hold (two's complement). -/
def decodeInt (w : Nat) (bs : List Nat) : Int :=
  let u := leNat (bs.take w) % 256 ^ w
  if 2 * u < 256 ^ w then (u : Int) else (u : Int) - (256 ^ w : Nat)

/-- The `len` bytes of `data` from offset `off` on (fewer when `data` ends before). -/
def readAt (data : List Nat) (off len : Nat) : List Nat :=
  (data.drop off).take len

/-- Store `bs` into `data` from offset `off` on; a gap between the end of
`data` and `off` is filled with zero bytes, as a write past the end of a file
does. -/
def writeAt (data : List Nat) (off : Nat) (bs : List Nat) : List Nat :=
  data.take off ++ List.replicate (off - data.length) 0 ++ bs ++ data.drop (off + bs.length)

/-! ## The stdio stream on `.disk` -/

/-- An open stream: the bytes of the file and the file position. -/
structure FILE where
  data : List Nat
  pos : Nat
  deriving DecidableEq, Repr

/-- The stream `fopen(".disk", ...)` returns: `NULL` (`none`) when the file is absent. -/
def fopen (disk : Option (List Nat)) : Option FILE :=
  disk.map fun d => { data := d, pos := 0 }

/-- What `fread(buf, 1, n, fd)` does: the bytes read (its return value is their
number) and the stream afterwards. -/
def fread (n : Nat) (fd : FILE) : List Nat × FILE :=
  let bs := readAt fd.data fd.pos n
  (bs, { fd with pos := fd.pos + bs.length })

/-- What `fwrite(buf, 1, n, fd)` does with the `n` bytes `bs` of `buf`: the
number of bytes written and the stream afterwards. -/
def fwrite (bs : List Nat) (fd : FILE) : Nat × FILE :=
  (bs.length, { data := writeAt fd.data fd.pos bs, pos := fd.pos + bs.length })

/-- What `fseek(fd, off, SEEK_SET)` does: 0 on success, -1 (position unchanged) for a negative
target. -/
def fseek_SET (off : Int) (fd : FILE) : Int × FILE :=
  if off < 0 then (-1, fd) else (0, { fd with pos := off.toNat })

/-- What `fseek(fd, off, SEEK_END)` does: 0 on success, -1 (position unchanged) for a negative
target. -/
def fseek_END (off : Int) (fd : FILE) : Int × FILE :=
  if (fd.data.length : Int) + off < 0 then (-1, fd)
  else (0, { fd with pos := ((fd.data.length : Int) + off).toNat })

/-! ## The bitmap allocator -/

/-- The inner loop of `find_free_block`,
`for(ret = 7; (count ^ mask) != 0; count >>= 1, ret--);`
started from `count` and `ret`; `count` is an `unsigned char`.  One unit of
fuel is spent per evaluation of the loop condition. -/
def bitSearch (mask : Nat) : Nat → Nat → Int → Except Fault Int
  | 0, _, _ => .error .timeout
  | fuel + 1, count, ret =>
    if count ^^^ mask ≠ 0 then bitSearch mask fuel ((count >>> 1) % 256) (ret - 1)
    else .ok ret

/-- The outer loop of `find_free_block`, `for(; i < BITMAP_LAST; i++)`, with `k`
iterations left (`k = BITMAP_LAST - i`): the value of `ret` and the bitmap array
when the loop is left. -/
def find_free_block_loop (fuel : Nat) (bitmap : List Nat) : Nat → Nat → Except Fault (Int × List Nat)
  | 0, _ => .ok (0, bitmap)
  | k + 1, i =>
    if bitmap.getD i 0 < 255 then
      let mask := (bitmap.getD i 0 + 1) % 256
      match bitSearch mask fuel 128 7 with
      | .error e => .error e
      | .ok ret => .ok (ret + i * 8, bitmap.set i ((bitmap.getD i 0 ||| mask) % 256))
    else find_free_block_loop fuel bitmap k (i + 1)

/-- Function `static long find_free_block(FILE* fd, unsigned char* bitmap)`, where
`bitmap` is the caller's array of `5*BLOCK_SIZE` bytes: the returned block number,
the array afterwards, and the stream after `fwrite(bitmap, 1, 5*BLOCK_SIZE, fd)` has
written the array at the current file position. -/
def find_free_block (fuel : Nat) (fd : FILE) (bitmap : List Nat) :
    Except Fault (Int × List Nat × FILE) :=
  match find_free_block_loop fuel bitmap (BITMAP_LAST - 1) 1 with
  | .error e => .error e
  | .ok (ret, bitmap1) => .ok (ret, bitmap1, (fwrite bitmap1 fd).2)

/-! ## Strings and path parsing -/

/-- The string a `char` array holds: its bytes before the first NUL. -/
def cstr (s : List Nat) : List Nat :=
  s.takeWhile (fun c => c ≠ 0)

/-- The `isspace` of the C locale: space, and `\t \n \v \f \r`. -/
def isspace (c : Nat) : Bool :=
  c = 32 || (9 ≤ c && c ≤ 13)

/-- Function `static void parsing(const char* path, char* dname, char* fname, char* fext)`:
the three buffers after the `memset`s and
`sscanf(path, "/%[^/]/%[^.].%s", dname, fname, fext)`.
The conversions carry no field width, so a buffer is modelled as holding the
whole component that was scanned (followed by NULs): `buf[k]` is
`buf.getD k 0`.  What a component longer than its buffer does to the
neighbouring objects is outside the model. -/
def parsing (path : List Nat) : List Nat × List Nat × List Nat :=
  match cstr path with
  | 47 :: r1 =>
    let dname := r1.takeWhile (fun c => c ≠ 47)
    if dname = [] then ([], [], [])
    else
      match r1.dropWhile (fun c => c ≠ 47) with
      | 47 :: r2 =>
        let fname := r2.takeWhile (fun c => c ≠ 46)
        if fname = [] then (dname, [], [])
        else
          match r2.dropWhile (fun c => c ≠ 46) with
          | 46 :: r3 =>
            (dname, fname, (r3.dropWhile isspace).takeWhile (fun c => !isspace c))
          | _ => (dname, fname, [])
      | _ => (dname, [], [])
  | _ => ([], [], [])

/-! ## The two directory blocks, as their 512 bytes -/

/-- The offset of `directories[i]` in `struct cs1550_root_directory` (packed entries of
`MAX_FILENAME + 1 + sizeof(long)` bytes after the `int nDirectories`). -/
def dirOffset (i : Nat) : Nat :=
  SIZEOF_INT + i * (MAX_FILENAME + 1 + SIZEOF_LONG)

/-- The field `root.nDirectories`. -/
def root_nDirectories (root : List Nat) : Int :=
  decodeInt SIZEOF_INT (readAt root 0 SIZEOF_INT)

/-- The array `root.directories[i].dname`. -/
def root_dname (root : List Nat) (i : Nat) : List Nat :=
  readAt root (dirOffset i) (MAX_FILENAME + 1)

/-- The field `root.directories[i].nStartBlock`. -/
def root_nStartBlock (root : List Nat) (i : Nat) : Int :=
  decodeInt SIZEOF_LONG (readAt root (dirOffset i + (MAX_FILENAME + 1)) SIZEOF_LONG)

/-- The offset of `files[i]` in `struct cs1550_directory_entry` (packed entries after the
`int nFiles`). -/
def fileOffset (i : Nat) : Nat :=
  SIZEOF_INT + i * ((MAX_FILENAME + 1) + (MAX_EXTENSION + 1) + SIZEOF_LONG + SIZEOF_LONG)

/-- The field `subdir.nFiles`. -/
def subdir_nFiles (subdir : List Nat) : Int :=
  decodeInt SIZEOF_INT (readAt subdir 0 SIZEOF_INT)

/-- The array `subdir.files[i].fname`. -/
def file_fname (subdir : List Nat) (i : Nat) : List Nat :=
  readAt subdir (fileOffset i) (MAX_FILENAME + 1)

/-- The array `subdir.files[i].fext`. -/
def file_fext (subdir : List Nat) (i : Nat) : List Nat :=
  readAt subdir (fileOffset i + (MAX_FILENAME + 1)) (MAX_EXTENSION + 1)

/-- The field `subdir.files[i].fsize`, as the `off_t` it is assigned to. -/
def file_fsize (subdir : List Nat) (i : Nat) : Int :=
  decodeInt SIZEOF_LONG
    (readAt subdir (fileOffset i + (MAX_FILENAME + 1) + (MAX_EXTENSION + 1)) SIZEOF_LONG)

/-- The field `subdir.files[i].nStartBlock`. -/
def file_nStartBlock (subdir : List Nat) (i : Nat) : Int :=
  decodeInt SIZEOF_LONG
    (readAt subdir (fileOffset i + (MAX_FILENAME + 1) + (MAX_EXTENSION + 1) + SIZEOF_LONG)
      SIZEOF_LONG)

/-! ## Lookups -/

/-- The loop of `disk_offset_of_dir`, `for(; i < n_dirs; i++)`, with `k = n_dirs - i`
iterations left.  `strcmp(dname, root.directories[i].dname) == 0` compares the
two strings; `dname` holds at most `MAX_FILENAME` characters at every call
site, so the comparison stays inside the 9-byte array. -/
def disk_offset_of_dir_loop (root dname : List Nat) : Nat → Nat → Except Fault Int
  | 0, _ => .ok 0
  | k + 1, i =>
    if MAX_DIRS_IN_ROOT ≤ i then .error .outOfBounds
    else if cstr dname = cstr (root_dname root i) then .ok (root_nStartBlock root i)
    else disk_offset_of_dir_loop root dname k (i + 1)

/-- Function `static long disk_offset_of_dir(FILE* fd, char* dname)`: the returned start
block (0 when not found) and the stream afterwards. -/
def disk_offset_of_dir (fd : FILE) (dname : List Nat) : Except Fault (Int × FILE) :=
  let rd := fread BLOCK_SIZE fd
  if rd.1.length = BLOCK_SIZE then
    match disk_offset_of_dir_loop rd.1 dname (root_nDirectories rd.1).toNat 0 with
    | .error e => .error e
    | .ok r => .ok (r, rd.2)
  else .ok (0, rd.2)

/-- The loop of `disk_offset_of_file_ext`, `for(; *index < n_files; (*index)++)`, with
`k = n_files - *index` iterations left: the returned start block and `*index`. -/
def disk_offset_of_file_ext_loop (subdir fname fext : List Nat) :
    Nat → Nat → Except Fault (Int × Nat)
  | 0, index => .ok (0, index)
  | k + 1, index =>
    if MAX_FILES_IN_DIR ≤ index then .error .outOfBounds
    else if cstr (file_fname subdir index) = cstr fname ∧ cstr (file_fext subdir index) = cstr fext
    then .ok (file_nStartBlock subdir index, index)
    else disk_offset_of_file_ext_loop subdir fname fext k (index + 1)

/-- Function `static long disk_offset_of_file_ext(cs1550_directory_entry* subdir, char* fname,
char* fext, int* index)`: the returned start block (0 when not found) and `*index`
afterwards. -/
def disk_offset_of_file_ext (subdir fname fext : List Nat) (index : Nat) :
    Except Fault (Int × Nat) :=
  disk_offset_of_file_ext_loop subdir fname fext ((subdir_nFiles subdir).toNat - index) index

/-! ## Attribute lookup and directory listing -/

/-- The fields of `struct stat` that `cs1550_getattr` sets. -/
structure stat where
  st_mode : Nat
  st_nlink : Nat
  st_size : Int
  deriving DecidableEq, Repr

/-- The product `BLOCK_SIZE * pos` computed in `long`. -/
def blockByteOffset (pos : Int) : Except Fault Int :=
  if (BLOCK_SIZE : Int) * pos < -(2 : Int) ^ 63 ∨ (2 : Int) ^ 63 ≤ (BLOCK_SIZE : Int) * pos then
    .error .overflow
  else .ok ((BLOCK_SIZE : Int) * pos)

/-- Function `static int cs1550_getattr(const char *path, struct stat *stbuf)` on the file
system state `disk` (the bytes of `.disk`, `none` when the file cannot be
opened): the return value and `*stbuf`. -/
def cs1550_getattr (path : List Nat) (disk : Option (List Nat)) : Except Fault (Int × stat) :=
  let zeroed : stat := { st_mode := 0, st_nlink := 0, st_size := 0 }
  if cstr path = [47] then
    .ok (0, { st_mode := S_IFDIR ||| 0o755, st_nlink := 2, st_size := 0 })
  else
    let dname := (parsing path).1
    let fname := (parsing path).2.1
    let fext := (parsing path).2.2
    if dname.getD 0 0 ≠ 0 ∧ dname.getD MAX_FILENAME 0 = 0 ∧ fname.getD MAX_FILENAME 0 = 0
        ∧ fext.getD MAX_EXTENSION 0 = 0 then
      match fopen disk with
      | none => .ok (-ENOENT, zeroed)
      | some fd =>
        match disk_offset_of_dir fd dname with
        | .error e => .error e
        | .ok (dir_pos, fd1) =>
          if dir_pos ≠ 0 then
            if fname.getD 0 0 = 0 then
              .ok (0, { st_mode := S_IFDIR ||| 0o755, st_nlink := 2, st_size := 0 })
            else
              match blockByteOffset dir_pos with
              | .error e => .error e
              | .ok off =>
                let sk := fseek_SET off fd1
                if sk.1 = 0 then
                  let subdir := (fread BLOCK_SIZE sk.2).1
                  if subdir.length = BLOCK_SIZE then
                    match disk_offset_of_file_ext subdir fname fext 0 with
                    | .error e => .error e
                    | .ok (file_ext_pos, index) =>
                      if file_ext_pos ≠ 0 then
                        .ok (0, { st_mode := S_IFREG ||| 0o666, st_nlink := 1,
                                  st_size := file_fsize subdir index })
                      else .ok (-ENOENT, zeroed)
                  else .ok (-ENOENT, zeroed)
                else .ok (-ENOENT, zeroed)
          else .ok (-ENOENT, zeroed)
    else .ok (-ENOENT, zeroed)

/-- A `char` array of `n` bytes used as a string (by `strcpy`, `strcat` or `filler`). -/
def fieldString (field : List Nat) : Except Fault (List Nat) :=
  if 0 ∈ field then .ok (cstr field) else .error .unterminated

/-- The loop of `cs1550_readdir` over the files of a subdirectory,
`for(; i < n_files; i++)`, with `k = n_files - i` iterations left: the names passed to
`filler`, in order. -/
def readdir_files_loop (subdir : List Nat) : Nat → Nat → Except Fault (List (List Nat))
  | 0, _ => .ok []
  | k + 1, i =>
    if MAX_FILES_IN_DIR ≤ i then .error .outOfBounds
    else
      match fieldString (file_fname subdir i) with
      | .error e => .error e
      | .ok fname =>
        if (file_fext subdir i).getD 0 0 ≠ 0 then
          match fieldString (file_fext subdir i) with
          | .error e => .error e
          | .ok fext =>
            match readdir_files_loop subdir k (i + 1) with
            | .error e => .error e
            | .ok rest => .ok ((fname ++ [46] ++ fext) :: rest)
        else
          match readdir_files_loop subdir k (i + 1) with
          | .error e => .error e
          | .ok rest => .ok (fname :: rest)

/-- The loop of `cs1550_readdir` over the directories of the root,
`for(; i < n_dirs; i++)`, with `k = n_dirs - i` iterations left: the names passed to
`filler`, in order. -/
def readdir_root_loop (root : List Nat) : Nat → Nat → Except Fault (List (List Nat))
  | 0, _ => .ok []
  | k + 1, i =>
    if MAX_DIRS_IN_ROOT ≤ i then .error .outOfBounds
    else
      match fieldString (root_dname root i) with
      | .error e => .error e
      | .ok dname =>
        match readdir_root_loop root k (i + 1) with
        | .error e => .error e
        | .ok rest => .ok (dname :: rest)

/-- Function `static int cs1550_readdir(const char *path, void *buf, fuse_fill_dir_t filler, ...)`:
the return value and the names handed to `filler`, in order (the first two are
`"."` and `".."`). -/
def cs1550_readdir (path : List Nat) (disk : Option (List Nat)) :
    Except Fault (Int × List (List Nat)) :=
  let dots : List (List Nat) := [[46], [46, 46]]
  if cstr path ≠ [47] then
    let dname := (parsing path).1
    let fname := (parsing path).2.1
    let fext := (parsing path).2.2
    if dname.getD 0 0 ≠ 0 ∧ dname.getD MAX_FILENAME 0 = 0 ∧ fname.getD MAX_FILENAME 0 = 0
        ∧ fext.getD MAX_EXTENSION 0 = 0 then
      match fopen disk with
      | none => .error .nullStream
      | some fd =>
        match disk_offset_of_dir fd dname with
        | .error e => .error e
        | .ok (dir_pos, fd1) =>
          if dir_pos ≠ 0 then
            match blockByteOffset dir_pos with
            | .error e => .error e
            | .ok off =>
              let sk := fseek_SET off fd1
              if sk.1 = 0 then
                let subdir := (fread BLOCK_SIZE sk.2).1
                if subdir.length = BLOCK_SIZE then
                  match readdir_files_loop subdir (subdir_nFiles subdir).toNat 0 with
                  | .error e => .error e
                  | .ok names => .ok (0, dots ++ names)
                else .ok (-ENOENT, dots)
              else .ok (-ENOENT, dots)
          else .ok (-ENOENT, dots)
    else .ok (-ENOENT, dots)
  else
    match fopen disk with
    | none => .error .nullStream
    | some fd =>
      let root := (fread BLOCK_SIZE fd).1
      if root.length = BLOCK_SIZE then
        match readdir_root_loop root (root_nDirectories root).toNat 0 with
        | .error e => .error e
        | .ok names => .ok (0, dots ++ names)
      else .ok (-ENOENT, dots)

/-! ## Directory creation -/

/-- Lines 298-300 of `disk_add_dir`, on the root block that was read:
`stpcpy(root.directories[root.nDirectories].dname, dname);`
`root.directories[root.nDirectories].nStartBlock = _nStartBlock;`
`root.nDirectories += 1;` -/
def root_add_entry (root dname : List Nat) (_nStartBlock : Int) : Except Fault (List Nat) :=
  let n := root_nDirectories root
  if n < 0 ∨ (MAX_DIRS_IN_ROOT : Int) ≤ n ∨ MAX_FILENAME < (cstr dname).length then
    .error .outOfBounds
  else
    let root1 := writeAt root (dirOffset n.toNat) (cstr dname ++ [0])
    let root2 := writeAt root1 (dirOffset n.toNat + (MAX_FILENAME + 1))
      (encodeInt SIZEOF_LONG _nStartBlock)
    .ok (writeAt root2 0 (encodeInt SIZEOF_INT (n + 1)))

/-- Function `static int disk_add_dir(FILE* fd, char* dname)`: the return value and the
stream afterwards.  `new_dir` is the object representation of the local
`cs1550_directory_entry new_dir`, which the function writes without having
assigned to it: its 512 bytes are whatever the stack holds. -/
def disk_add_dir (fuel : Nat) (new_dir : List Nat) (fd : FILE) (dname : List Nat) :
    Except Fault (Int × FILE) :=
  let s1 := fseek_END (-(5 * BLOCK_SIZE : Nat)) fd
  if s1.1 = 0 then
    let rb := fread (5 * BLOCK_SIZE) s1.2
    if rb.1.length = BITMAP_LAST + 1 then
      match find_free_block fuel rb.2 rb.1 with
      | .error e => .error e
      | .ok (_nStartBlock, _, fd3) =>
        if _nStartBlock ≠ 0 then
          let s2 := fseek_SET 0 fd3
          if s2.1 = 0 then
            let rr := fread BLOCK_SIZE s2.2
            if rr.1.length = BLOCK_SIZE then
              match root_add_entry rr.1 dname _nStartBlock with
              | .error e => .error e
              | .ok root =>
                let s3 := fseek_SET 0 rr.2
                if s3.1 = 0 then
                  let w1 := fwrite root s3.2
                  if w1.1 = BLOCK_SIZE then
                    let s4 := fseek_SET (_nStartBlock * BLOCK_SIZE) w1.2
                    if s4.1 = 0 then
                      let w2 := fwrite new_dir s4.2
                      if w2.1 = BLOCK_SIZE then .ok (0, w2.2) else .ok (-1, w2.2)
                    else .ok (-1, s4.2)
                  else .ok (-1, w1.2)
                else .ok (-1, s3.2)
            else .ok (-1, rr.2)
          else .ok (-1, s2.2)
        else .ok (-1, fd3)
    else .ok (-1, rb.2)
  else .ok (-1, s1.2)

/-- Function `static int cs1550_mkdir(const char *path, mode_t mode)` on the file system
state `disk`: the return value and the state afterwards (the stream is closed
before returning, `fclose(NULL)` when `.disk` could not be opened). -/
def cs1550_mkdir (fuel : Nat) (new_dir : List Nat) (path : List Nat) (disk : Option (List Nat)) :
    Except Fault (Int × Option (List Nat)) :=
  let dname := (parsing path).1
  let fname := (parsing path).2.1
  if dname.getD MAX_FILENAME 0 ≠ 0 then .ok (-ENAMETOOLONG, disk)
  else if fname.getD 0 0 ≠ 0 then .ok (-EPERM, disk)
  else if dname.getD 0 0 ≠ 0 ∧ dname.getD MAX_FILENAME 0 = 0 ∧ fname.getD 0 0 = 0 then
    match fopen disk with
    | none => .error .nullStream
    | some fd =>
      match disk_offset_of_dir fd dname with
      | .error e => .error e
      | .ok (found, fd1) =>
        if found ≠ 0 then .ok (-EEXIST, some fd1.data)
        else
          match disk_add_dir fuel new_dir fd1 dname with
          | .error e => .error e
          | .ok (ret, fd2) => .ok (ret, some fd2.data)
  else .ok (0, disk)

/-! ## File contents -/

/-- The `int` a `size_t` is converted to by `return size`. -/
def sizeToInt (size : Nat) : Int :=
  decodeInt SIZEOF_INT (leBytes SIZEOF_INT size)

/-- Function `static int cs1550_read(const char *path, char *buf, size_t size, off_t offset, ...)`:
the return value and the contents of `buf` afterwards.  The body sets `size = 0`
and returns it; neither `.disk` nor `buf` is touched. -/
def cs1550_read (_path : List Nat) (buf : List Nat) (_size : Nat) (_offset : Int)
    (_disk : Option (List Nat)) : Int × List Nat :=
  (sizeToInt 0, buf)

/-- Function `static int cs1550_write(const char *path, const char *buf, size_t size, off_t offset,
...)`: the return value and the file system state afterwards.  The body returns
`size`; `.disk` is not touched. -/
def cs1550_write (_path : List Nat) (_buf : List Nat) (size : Nat) (_offset : Int)
    (disk : Option (List Nat)) : Int × Option (List Nat) :=
  (sizeToInt size, disk)

/-! ## Predicates and concrete inputs used in the statements -/

/-- A byte whose used bits are a run starting at the least significant bit. -/
def canonical (x : Nat) : Prop := ∃ k, k ≤ 8 ∧ x = 2 ^ k - 1

/-- Whether the bitmap marks block `b` as used: bit `b mod 8` of byte `b div 8`. -/
def blockUsed (bitmap : List Nat) (b : Nat) : Bool :=
  (bitmap.getD (b / 8) 0).testBit (b % 8)

/-- The bitmaps the allocator produces from the all-zero bitmap. -/
inductive Reachable : List Nat → Prop where
  | zero : Reachable (List.replicate (5 * BLOCK_SIZE) 0)
  | alloc (fuel : Nat) (fd : FILE) (bitmap : List Nat) (ret : Int) (bitmap1 : List Nat)
      (fd1 : FILE) : Reachable bitmap →
      find_free_block fuel fd bitmap = .ok (ret, bitmap1, fd1) → Reachable bitmap1

/-- A directory name as the path grammar has it: at least one byte, none of
them NUL or `/`. -/
def validName (name : List Nat) : Prop :=
  name ≠ [] ∧ ∀ c ∈ name, c ≠ 0 ∧ c ≠ 47

/-- The root table of the image lists `name` in one of its live slots. -/
def present (img name : List Nat) : Prop :=
  ∃ j : Nat, (j : Int) < root_nDirectories (readAt img 0 BLOCK_SIZE) ∧ j < MAX_DIRS_IN_ROOT
    ∧ cstr (root_dname (readAt img 0 BLOCK_SIZE) j) = name

/-- The root table of the image lists `name` in a live slot whose start block
is 0, the value lookups return for "not found". -/
def staleEntry (img name : List Nat) : Prop :=
  ∃ j : Nat, (j : Int) < root_nDirectories (readAt img 0 BLOCK_SIZE) ∧ j < MAX_DIRS_IN_ROOT
    ∧ cstr (root_dname (readAt img 0 BLOCK_SIZE) j) = name
    ∧ root_nStartBlock (readAt img 0 BLOCK_SIZE) j = 0

/-- A root block with one live entry: the one-byte name `c` at start block `blk`. -/
def rootWith (c blk : Nat) : List Nat :=
  [1, 0, 0, 0, c, 0, 0, 0, 0, 0, 0, 0, 0, blk, 0, 0, 0, 0, 0, 0, 0] ++ List.replicate 491 0

/-- An image of `m + 6` blocks: the given root block, `m` zero blocks, and the
given bitmap in the final five blocks. -/
def imageOf (root : List Nat) (m : Nat) (bitmap : List Nat) : List Nat :=
  root ++ List.replicate (m * BLOCK_SIZE) 0 ++ bitmap

/-- The all-zero bitmap. -/
def zeroBitmap : List Nat := List.replicate (5 * BLOCK_SIZE) 0

/-- The all-zero root block: no directories. -/
def zeroRoot : List Nat := List.replicate BLOCK_SIZE 0

/-- A bitmap whose byte 1 is 2: block 9 used, block 8 free. -/
def gapBitmap : List Nat := 0 :: 2 :: List.replicate (5 * BLOCK_SIZE - 2) 0

/-- A bitmap whose bytes are all 255 except the last one, which is 0. -/
def lastByteBitmap : List Nat := List.replicate (5 * BLOCK_SIZE - 1) 255 ++ [0]

/-- A possible content of the uninitialised `new_dir` of `disk_add_dir`: 512 bytes of
stack that read as `nFiles = 1` and `files[0].fname = "x"`. -/
def junkDir : List Nat :=
  [1, 0, 0, 0, 120, 0, 0, 0, 0, 0, 0, 0, 0, 0, 0, 0, 0] ++ List.replicate 495 0

/-- A root block whose table is full: 29 directories `"d00"` .. `"d28"` at the
start blocks 8 .. 36. -/
def fullRoot : List Nat :=
  encodeInt SIZEOF_INT 29
    ++ (List.range 29).flatMap (fun i =>
        [100, 48 + i / 10, 48 + i % 10, 0, 0, 0, 0, 0, 0] ++ encodeInt SIZEOF_LONG ((8 + i : Nat) : Int))
    ++ List.replicate 15 0

/-- A bitmap that marks the blocks 8 .. 36 as used. -/
def fullBitmap : List Nat :=
  [0, 255, 255, 255, 31] ++ List.replicate (5 * BLOCK_SIZE - 5) 0

/-- A subdirectory block with one file, `"f"` without extension, of size 0, whose
start block is 9. -/
def fileDir : List Nat :=
  [1, 0, 0, 0, 102, 0, 0, 0, 0, 0, 0, 0, 0, 0, 0, 0, 0, 0, 0, 0, 0, 0, 0, 0, 0,
    9, 0, 0, 0, 0, 0, 0, 0] ++ List.replicate 479 0

/-- A 64-block image holding the directory `"d"` at block 8 with the file `"f"` in it:
root, 7 zero blocks, the subdirectory block, 50 zero blocks, the bitmap. -/
def fileImage : List Nat :=
  rootWith 100 8 ++ List.replicate (7 * BLOCK_SIZE) 0 ++ fileDir
    ++ List.replicate (50 * BLOCK_SIZE) 0 ++ ([0, 3] ++ List.replicate (5 * BLOCK_SIZE - 2) 0)

/-! ## Theorems -/

/-! ### The bit search and the scan of the allocator -/

theorem bitSearch_zero (mask : Nat) (hm : mask ≠ 0) :
    ∀ (fuel : Nat) (ret : Int), bitSearch mask fuel 0 ret = .error .timeout := by
  intro fuel
  induction fuel with
  | zero => intro ret; rfl
  | succ f ih =>
    intro ret
    have h0 : (0 : Nat) ^^^ mask = mask := by simp
    simp [bitSearch, h0, hm, ih]

theorem bitSearch_pow (k : Nat) (hk : k ≤ 7) (fuel : Nat) (hf : 8 ≤ fuel) :
    bitSearch (2 ^ k) fuel 128 7 = .ok (k : Int) := by
  obtain ⟨f, rfl⟩ : ∃ f, fuel = f + 8 := ⟨fuel - 8, by omega⟩
  interval_cases k <;> simp [bitSearch]

theorem bitSearch_three (fuel : Nat) : bitSearch 3 fuel 128 7 = .error .timeout := by
  by_cases h : fuel < 8
  · interval_cases fuel <;> rfl
  · obtain ⟨f, rfl⟩ : ∃ f, fuel = f + 8 := ⟨fuel - 8, by omega⟩
    simp [bitSearch, bitSearch_zero]

theorem canonical_getD (bitmap : List Nat) (hcan : ∀ x ∈ bitmap, canonical x) (j : Nat) :
    canonical (bitmap.getD j 0) := by
  by_cases hj : j < bitmap.length
  · rw [List.getD_eq_getElem _ _ hj]
    exact hcan _ (List.getElem_mem hj)
  · rw [List.getD_eq_default _ _ (by omega)]
    exact ⟨0, by omega, rfl⟩

theorem canonical_step (m : Nat) (hm : m ≤ 7) :
    2 ^ m - 1 < 255 ∧ (2 ^ m - 1 + 1) % 256 = 2 ^ m
      ∧ ((2 ^ m - 1) ||| 2 ^ m) % 256 = 2 ^ (m + 1) - 1 := by
  interval_cases m <;> decide

/-- What the outer loop does on a bitmap of canonical bytes: either every byte
in its range is full and it leaves with 0, or it stops at the first byte that
is not full and takes that byte's lowest clear bit. -/
theorem find_free_block_loop_spec (fuel : Nat) (hf : 8 ≤ fuel) (bitmap : List Nat)
    (hcan : ∀ x ∈ bitmap, canonical x) :
    ∀ k i : Nat,
      ((∀ j, i ≤ j → j < i + k → bitmap.getD j 0 = 255)
          ∧ find_free_block_loop fuel bitmap k i = .ok (0, bitmap))
      ∨ ∃ j m, i ≤ j ∧ j < i + k ∧ m ≤ 7 ∧ bitmap.getD j 0 = 2 ^ m - 1
          ∧ (∀ j1, i ≤ j1 → j1 < j → bitmap.getD j1 0 = 255)
          ∧ find_free_block_loop fuel bitmap k i
              = .ok (((8 * j + m : Nat) : Int), bitmap.set j (2 ^ (m + 1) - 1)) := by
  intro k
  induction k with
  | zero =>
    intro i
    left
    exact ⟨fun j h1 h2 => by omega, rfl⟩
  | succ k ih =>
    intro i
    obtain ⟨m, hm8, hx⟩ := canonical_getD bitmap hcan i
    by_cases hfull : m = 8
    · subst hfull
      have hx255 : bitmap.getD i 0 = 255 := by rw [hx]; rfl
      have hstep : find_free_block_loop fuel bitmap (k + 1) i
          = find_free_block_loop fuel bitmap k (i + 1) := by
        simp only [find_free_block_loop, hx255, lt_irrefl, if_false]
      rcases ih (i + 1) with ⟨hall, hres⟩ | ⟨j, m, h1, h2, h3, h4, h5, h6⟩
      · left
        refine ⟨fun j h1 h2 => ?_, by rw [hstep, hres]⟩
        by_cases hji : j = i
        · rw [hji, hx255]
        · exact hall j (by omega) (by omega)
      · right
        refine ⟨j, m, by omega, by omega, h3, h4, fun j1 h7 h8 => ?_, by rw [hstep, h6]⟩
        by_cases hji : j1 = i
        · rw [hji, hx255]
        · exact h5 j1 (by omega) h8
    · have hm7 : m ≤ 7 := by omega
      obtain ⟨c1, c2, c3⟩ := canonical_step m hm7
      right
      refine ⟨i, m, le_refl _, by omega, hm7, hx, fun j1 h7 h8 => by omega, ?_⟩
      simp only [find_free_block_loop, hx, c1, c2, c3, if_true, bitSearch_pow m hm7 fuel hf]
      congr 2
      push_cast
      ring

theorem getD_set_same (l : List Nat) (j v : Nat) (hj : j < l.length) :
    (l.set j v).getD j 0 = v := by
  simp [List.getD_eq_getElem?_getD, List.getElem?_set, hj]

theorem getD_set_other (l : List Nat) (j i v : Nat) (hij : j ≠ i) :
    (l.set j v).getD i 0 = l.getD i 0 := by
  simp [List.getD_eq_getElem?_getD, List.getElem?_set, hij]

theorem find_free_block_eq (fuel : Nat) (fd : FILE) (bitmap : List Nat) (r : Int)
    (bitmap1 : List Nat)
    (h : find_free_block_loop fuel bitmap (BITMAP_LAST - 1) 1 = .ok (r, bitmap1)) :
    find_free_block fuel fd bitmap = .ok (r, bitmap1, (fwrite bitmap1 fd).2) := by
  simp [find_free_block, h]

/-- The allocator on a bitmap of canonical bytes, in terms of blocks. -/
theorem find_free_block_blocks (fuel : Nat) (fd : FILE) (bitmap : List Nat) (hf : 8 ≤ fuel)
    (hlen : bitmap.length = 5 * BLOCK_SIZE) (hcan : ∀ x ∈ bitmap, canonical x) :
    ((∀ b, 8 ≤ b → b < 8 * BITMAP_LAST → blockUsed bitmap b = true)
        ∧ find_free_block fuel fd bitmap = .ok (0, bitmap, (fwrite bitmap fd).2))
    ∨ ∃ b bitmap1, 8 ≤ b ∧ b < 8 * BITMAP_LAST ∧ blockUsed bitmap b = false
        ∧ (∀ c, 8 ≤ c → c < b → blockUsed bitmap c = true)
        ∧ find_free_block fuel fd bitmap = .ok ((b : Int), bitmap1, (fwrite bitmap1 fd).2)
        ∧ bitmap1.length = 5 * BLOCK_SIZE
        ∧ ∀ c, blockUsed bitmap1 c = (decide (c = b) || blockUsed bitmap c) := by
  have hB : BITMAP_LAST = 2559 := rfl
  have hL : bitmap.length = 2560 := hlen
  rcases find_free_block_loop_spec fuel hf bitmap hcan (BITMAP_LAST - 1) 1 with
    ⟨hall, hres⟩ | ⟨j, m, h1, h2, h3, h4, h5, h6⟩
  · left
    refine ⟨fun b hb1 hb2 => ?_, find_free_block_eq fuel fd bitmap 0 bitmap hres⟩
    have hbyte := hall (b / 8) (by omega) (by omega)
    have h255 : (255 : Nat) = 2 ^ 8 - 1 := rfl
    unfold blockUsed
    rw [hbyte, h255, Nat.testBit_two_pow_sub_one]
    exact decide_eq_true (by omega)
  · right
    have hdiv : (8 * j + m) / 8 = j := by omega
    have hmod : (8 * j + m) % 8 = m := by omega
    refine ⟨8 * j + m, bitmap.set j (2 ^ (m + 1) - 1), by omega, by omega, ?_, ?_,
      find_free_block_eq fuel fd bitmap _ _ h6, by simp [hL, BLOCK_SIZE], ?_⟩
    · unfold blockUsed
      rw [hdiv, hmod, h4, Nat.testBit_two_pow_sub_one]
      simp
    · intro c hc1 hc2
      unfold blockUsed
      by_cases hcj : c / 8 = j
      · rw [hcj, h4, Nat.testBit_two_pow_sub_one]
        exact decide_eq_true (by omega)
      · have hbyte := h5 (c / 8) (by omega) (by omega)
        have h255 : (255 : Nat) = 2 ^ 8 - 1 := rfl
        rw [hbyte, h255, Nat.testBit_two_pow_sub_one]
        exact decide_eq_true (by omega)
    · intro c
      unfold blockUsed
      by_cases hcj : c / 8 = j
      · rw [hcj, getD_set_same _ _ _ (by omega), h4, Nat.testBit_two_pow_sub_one,
          Nat.testBit_two_pow_sub_one]
        by_cases hcm : c % 8 < m
        · have hne : c ≠ 8 * j + m := by omega
          simp [hcm, hne]; omega
        · by_cases hce : c % 8 = m
          · have : c = 8 * j + m := by omega
            simp [this, hmod]
          · have hne : c ≠ 8 * j + m := by omega
            have : ¬ c % 8 < m + 1 := by omega
            simp [hcm, hne, this]
      · have hne : c ≠ 8 * j + m := by omega
        rw [getD_set_other _ _ _ _ (fun h => hcj h.symm)]
        simp [hne]

theorem bitSearch_range (mask : Nat) (hm : mask ≠ 0) :
    ∀ (fuel t : Nat) (r : Int), t ≤ 7 → bitSearch mask fuel (2 ^ t) (t : Int) = .ok r →
      0 ≤ r ∧ r ≤ 7 := by
  intro fuel
  induction fuel with
  | zero => intro t r _ h; simp [bitSearch] at h
  | succ f ih =>
    intro t r ht h
    rw [bitSearch] at h
    by_cases hx : 2 ^ t ^^^ mask ≠ 0
    · rw [if_pos hx] at h
      rcases Nat.eq_zero_or_pos t with h0 | hpos
      · subst h0
        have : (2 ^ 0 >>> 1) % 256 = 0 := by decide
        rw [this, bitSearch_zero mask hm] at h
        simp at h
      · obtain ⟨s, rfl⟩ : ∃ s, t = s + 1 := ⟨t - 1, by omega⟩
        have hs : (2 ^ (s + 1) >>> 1) % 256 = 2 ^ s := by
          have : s ≤ 6 := by omega
          interval_cases s <;> decide
        have hr : ((s + 1 : Nat) : Int) - 1 = (s : Int) := by push_cast; ring
        rw [hs, hr] at h
        exact ih s r (by omega) h
    · rw [if_neg hx] at h
      simp only [Except.ok.injEq] at h
      omega

/-- Whatever the bitmap holds, a result of the outer loop is 0 with the bitmap
untouched, or `8 * j + r` for a byte `j` in the loop's range and a bit `r < 8`
with only byte `j` changed. -/
theorem find_free_block_loop_range (fuel : Nat) (bitmap : List Nat) :
    ∀ (k i : Nat) (ret : Int) (bitmap1 : List Nat),
      find_free_block_loop fuel bitmap k i = .ok (ret, bitmap1) →
      (ret = 0 ∧ bitmap1 = bitmap)
      ∨ ∃ j, i ≤ j ∧ j < i + k ∧ 8 * (j : Int) ≤ ret ∧ ret ≤ 8 * (j : Int) + 7
          ∧ bitmap.getD j 0 < 255
          ∧ bitmap1 = bitmap.set j
              ((bitmap.getD j 0 ||| (bitmap.getD j 0 + 1) % 256) % 256) := by
  intro k
  induction k with
  | zero =>
    intro i ret bitmap1 h
    simp only [find_free_block_loop, Except.ok.injEq, Prod.mk.injEq] at h
    exact Or.inl ⟨h.1.symm, h.2.symm⟩
  | succ k ih =>
    intro i ret bitmap1 h
    rw [find_free_block_loop] at h
    by_cases hx : bitmap.getD i 0 < 255
    · rw [if_pos hx] at h
      have hmask : (bitmap.getD i 0 + 1) % 256 ≠ 0 := by omega
      cases hb : bitSearch ((bitmap.getD i 0 + 1) % 256) fuel 128 7 with
      | error e => simp only [hb, reduceCtorEq] at h
      | ok r =>
        simp only [hb, Except.ok.injEq, Prod.mk.injEq] at h
        have hr := bitSearch_range _ hmask fuel 7 r (le_refl _) (by simpa using hb)
        right
        exact ⟨i, le_refl _, by omega, by omega, by omega, hx, h.2.symm⟩
    · rw [if_neg hx] at h
      rcases ih (i + 1) ret bitmap1 h with h0 | ⟨j, h1, h2, h3⟩
      · exact Or.inl h0
      · exact Or.inr ⟨j, by omega, by omega, h3⟩

theorem find_free_block_inv (fuel : Nat) (fd : FILE) (bitmap : List Nat) (ret : Int)
    (bitmap1 : List Nat) (fd1 : FILE)
    (h : find_free_block fuel fd bitmap = .ok (ret, bitmap1, fd1)) :
    find_free_block_loop fuel bitmap (BITMAP_LAST - 1) 1 = .ok (ret, bitmap1)
      ∧ fd1 = (fwrite bitmap1 fd).2 := by
  unfold find_free_block at h
  cases hl : find_free_block_loop fuel bitmap (BITMAP_LAST - 1) 1 with
  | error e => simp only [hl, reduceCtorEq] at h
  | ok p =>
    obtain ⟨r, b⟩ := p
    simp only [hl, Except.ok.injEq, Prod.mk.injEq] at h
    obtain ⟨h1, h2, h3⟩ := h
    subst h1 h2
    exact ⟨rfl, h3.symm⟩

theorem canonical_or (x : Nat) (hx : canonical x) (hlt : x < 255) :
    canonical ((x ||| (x + 1) % 256) % 256) := by
  obtain ⟨m, hm, rfl⟩ := hx
  have hm7 : m ≤ 7 := by
    rcases Nat.lt_or_ge m 8 with h | h
    · omega
    · have : m = 8 := by omega
      subst this; simp at hlt
  obtain ⟨_, c2, c3⟩ := canonical_step m hm7
  rw [c2, c3]
  exact ⟨m + 1, by omega, rfl⟩

theorem find_free_block_keeps_canonical (fuel : Nat) (fd : FILE) (bitmap : List Nat)
    (ret : Int) (bitmap1 : List Nat) (fd1 : FILE)
    (h : find_free_block fuel fd bitmap = .ok (ret, bitmap1, fd1))
    (hcan : ∀ x ∈ bitmap, canonical x) : ∀ x ∈ bitmap1, canonical x := by
  obtain ⟨hl, _⟩ := find_free_block_inv fuel fd bitmap ret bitmap1 fd1 h
  rcases find_free_block_loop_range fuel bitmap _ _ _ _ hl with ⟨_, h2⟩ | ⟨j, _, _, _, _, h5, h6⟩
  · rw [h2]; exact hcan
  · intro x hx
    rw [h6] at hx
    rcases List.mem_or_eq_of_mem_set hx with h7 | h7
    · exact hcan x h7
    · rw [h7]; exact canonical_or _ (canonical_getD bitmap hcan j) h5

theorem reachable_canonical (bitmap : List Nat) (h : Reachable bitmap) :
    ∀ x ∈ bitmap, canonical x := by
  induction h with
  | zero =>
    intro x hx
    rw [List.eq_of_mem_replicate hx]
    exact ⟨0, by omega, rfl⟩
  | alloc fuel fd bitmap ret bitmap1 fd1 _ hstep ih =>
    exact find_free_block_keeps_canonical fuel fd bitmap ret bitmap1 fd1 hstep ih

/-! ### Byte ranges -/

theorem length_readAt (d : List Nat) (off len : Nat) :
    (readAt d off len).length = min len (d.length - off) := by
  simp [readAt]

theorem length_writeAt (d : List Nat) (off : Nat) (bs : List Nat) :
    (writeAt d off bs).length = max d.length (off + bs.length) := by
  simp only [writeAt, List.length_append, List.length_take, List.length_replicate,
    List.length_drop]
  omega

theorem getElem?_readAt (d : List Nat) (off len i : Nat) :
    (readAt d off len)[i]? = if i < len then d[off + i]? else none := by
  simp only [readAt, List.getElem?_take, List.getElem?_drop]

theorem getElem?_writeAt (d : List Nat) (off : Nat) (bs : List Nat) (i : Nat) :
    (writeAt d off bs)[i]? =
      if i < off then (if i < d.length then d[i]? else some 0)
      else if i < off + bs.length then bs[i - off]? else d[i]? := by
  unfold writeAt
  by_cases h1 : i < off
  · rw [if_pos h1, List.append_assoc, List.append_assoc]
    by_cases h2 : i < d.length
    · rw [if_pos h2, List.getElem?_append_left (by simp; omega), List.getElem?_take_of_lt h1]
    · rw [if_neg h2, List.getElem?_append_right (by simp; omega),
        List.getElem?_append_left (by simp; omega)]
      simp [List.getElem?_replicate]
      omega
  · rw [if_neg h1]
    have hlen : (List.take off d ++ List.replicate (off - d.length) 0).length = off := by
      simp; omega
    by_cases h2 : i < off + bs.length
    · rw [if_pos h2, List.getElem?_append_left (by simp; omega),
        List.getElem?_append_right (by rw [hlen]; omega), hlen]
    · rw [if_neg h2, List.getElem?_append_right (by simp; omega)]
      simp only [List.length_append, List.length_take, List.length_replicate,
        List.getElem?_drop]
      congr 1
      omega

theorem readAt_writeAt_same (d : List Nat) (off : Nat) (bs : List Nat) :
    readAt (writeAt d off bs) off bs.length = bs := by
  apply List.ext_getElem?
  intro i
  rw [getElem?_readAt, getElem?_writeAt]
  by_cases h : i < bs.length
  · simp [h]
  · simp [h, List.getElem?_eq_none (Nat.le_of_not_lt h)]

theorem readAt_writeAt_before (d : List Nat) (off : Nat) (bs : List Nat) (o len : Nat)
    (h1 : o + len ≤ off) (h2 : o + len ≤ d.length) :
    readAt (writeAt d off bs) o len = readAt d o len := by
  apply List.ext_getElem?
  intro i
  rw [getElem?_readAt, getElem?_readAt, getElem?_writeAt]
  by_cases h : i < len
  · simp [h, show o + i < off by omega, show o + i < d.length by omega]
  · simp [h]

theorem readAt_writeAt_after (d : List Nat) (off : Nat) (bs : List Nat) (o len : Nat)
    (h1 : off + bs.length ≤ o) :
    readAt (writeAt d off bs) o len = readAt d o len := by
  apply List.ext_getElem?
  intro i
  rw [getElem?_readAt, getElem?_readAt, getElem?_writeAt]
  by_cases h : i < len
  · simp [h, show ¬ o + i < off by omega, show ¬ o + i < off + bs.length by omega]
  · simp [h]

theorem readAt_add (d : List Nat) (o a b : Nat) :
    readAt d o (a + b) = readAt d o a ++ readAt d (o + a) b := by
  simp only [readAt]
  rw [List.take_add, List.drop_drop]

theorem readAt_full (d : List Nat) : readAt d 0 d.length = d := by
  simp [readAt]

theorem writeAt_end (d bs : List Nat) : writeAt d d.length bs = d ++ bs := by
  simp [writeAt]

/-! ### Integers and strings in memory -/

theorem length_leBytes : ∀ (w v : Nat), (leBytes w v).length = w
  | 0, _ => rfl
  | w + 1, v => by simp [leBytes, length_leBytes w]

theorem leNat_leBytes : ∀ (w v : Nat), leNat (leBytes w v) = v % 256 ^ w
  | 0, v => by simp [leBytes, leNat, Nat.mod_one]
  | w + 1, v => by
    rw [leBytes, leNat, leNat_leBytes w, Nat.mod_mod, pow_succ, Nat.mul_comm (256 ^ w) 256,
      Nat.mod_mul, Nat.add_comm]

theorem length_encodeInt (w : Nat) (v : Int) : (encodeInt w v).length = w :=
  length_leBytes w _

theorem decodeInt_encodeInt (w : Nat) (v : Int) (h0 : 0 ≤ v) (h1 : 2 * v < (256 ^ w : Nat)) :
    decodeInt w (encodeInt w v) = v := by
  obtain ⟨n, rfl⟩ := Int.eq_ofNat_of_zero_le h0
  have hn : 2 * n < 256 ^ w := by exact_mod_cast h1
  have hmod : n % 256 ^ w = n := Nat.mod_eq_of_lt (by omega)
  have henc : encodeInt w (n : Int) = leBytes w n := by
    unfold encodeInt
    rw [← Int.natCast_mod, Int.toNat_natCast, hmod]
  unfold decodeInt
  rw [henc, List.take_of_length_le (by rw [length_leBytes]), leNat_leBytes, hmod]
  simp only [hmod]
  rw [if_pos hn]

theorem cstr_of_no_nul (s : List Nat) (h : ∀ c ∈ s, c ≠ 0) : cstr s = s := by
  unfold cstr
  rw [List.takeWhile_eq_self_iff]
  intro c hc
  simpa using h c hc

theorem cstr_append_nul (s rest : List Nat) (h : ∀ c ∈ s, c ≠ 0) :
    cstr (s ++ 0 :: rest) = s := by
  unfold cstr
  induction s with
  | nil => simp
  | cons a t ih =>
    have ha : a ≠ 0 := h a (List.mem_cons_self _ _)
    simp only [List.cons_append, List.takeWhile_cons, ne_eq, ha, not_false_eq_true,
      decide_True, if_true]
    rw [ih (fun c hc => h c (List.mem_cons_of_mem _ hc))]

/-! ### Appending an entry to the root block -/

/-- What lines 298-300 of `disk_add_dir` leave in the root block when the count
`n` is a valid index and the name fits. -/
theorem root_add_entry_spec (root name : List Nat) (b : Int) (k : Nat)
    (hlen : root.length = BLOCK_SIZE) (hn : root_nDirectories root = (k : Int))
    (hk : k < MAX_DIRS_IN_ROOT) (hname : ∀ c ∈ name, c ≠ 0) (hnl : name.length ≤ MAX_FILENAME)
    (hb0 : 0 ≤ b) (hb1 : b < 2 ^ 62) :
    ∃ root1, root_add_entry root name b = .ok root1
      ∧ root1.length = BLOCK_SIZE
      ∧ root_nDirectories root1 = (k : Int) + 1
      ∧ (∀ j, j < k → root_dname root1 j = root_dname root j
          ∧ root_nStartBlock root1 j = root_nStartBlock root j)
      ∧ cstr (root_dname root1 k) = name
      ∧ root_nStartBlock root1 k = b := by
  have hM : MAX_DIRS_IN_ROOT = 29 := rfl
  have hL : root.length = 512 := hlen
  have hcs : cstr name = name := cstr_of_no_nul name hname
  have hnl8 : name.length ≤ 8 := hnl
  have hk29 : k < 29 := hk
  have hoff : ∀ j, dirOffset j = 4 + j * 17 := fun j => rfl
  have e8 : (encodeInt SIZEOF_LONG b).length = 8 := length_encodeInt _ _
  have e4 : (encodeInt SIZEOF_INT ((k : Int) + 1)).length = 4 := length_encodeInt _ _
  have hcond : ¬ ((k : Int) < 0 ∨ (MAX_DIRS_IN_ROOT : Int) ≤ (k : Int)
      ∨ MAX_FILENAME < (cstr name).length) := by
    rw [hcs, hM]
    simp only [MAX_FILENAME]
    omega
  have hadd : root_add_entry root name b = .ok
      (writeAt (writeAt (writeAt root (dirOffset k) (cstr name ++ [0]))
        (dirOffset k + (MAX_FILENAME + 1)) (encodeInt SIZEOF_LONG b)) 0
        (encodeInt SIZEOF_INT ((k : Int) + 1))) := by
    rw [root_add_entry]
    simp only [hn, hcond, if_false, Int.toNat_ofNat]
  refine ⟨_, hadd, ?_, ?_, ?_, ?_, ?_⟩
  · simp only [length_writeAt, hL, e8, e4, hcs, List.length_append, List.length_singleton, hoff,
      MAX_FILENAME, BLOCK_SIZE]
    omega
  · unfold root_nDirectories
    have := readAt_writeAt_same
      (writeAt (writeAt root (dirOffset k) (cstr name ++ [0]))
        (dirOffset k + (MAX_FILENAME + 1)) (encodeInt SIZEOF_LONG b)) 0
      (encodeInt SIZEOF_INT ((k : Int) + 1))
    rw [e4] at this
    have h4 : SIZEOF_INT = 4 := rfl
    rw [h4] at this ⊢
    rw [this]
    exact decodeInt_encodeInt 4 _ (by omega) (by norm_num; omega)
  · intro j hj
    have hrd : ∀ o len, 4 ≤ o → o + len ≤ dirOffset k →
        readAt (writeAt (writeAt (writeAt root (dirOffset k) (cstr name ++ [0]))
          (dirOffset k + (MAX_FILENAME + 1)) (encodeInt SIZEOF_LONG b)) 0
          (encodeInt SIZEOF_INT ((k : Int) + 1))) o len = readAt root o len := by
      intro o len h4 ho
      rw [hoff] at ho
      rw [readAt_writeAt_after _ _ _ _ _ (by rw [e4]; omega),
        readAt_writeAt_before _ _ _ _ _ (by rw [hoff]; omega)
          (by rw [length_writeAt, hL]; omega),
        readAt_writeAt_before _ _ _ _ _ (by rw [hoff]; omega) (by rw [hL]; omega)]
    constructor
    · unfold root_dname
      exact hrd _ _ (by rw [hoff]; omega) (by rw [hoff, hoff]; simp only [MAX_FILENAME]; omega)
    · unfold root_nStartBlock
      rw [hrd _ _ (by rw [hoff]; omega)
        (by rw [hoff, hoff]; simp only [MAX_FILENAME, SIZEOF_LONG]; omega)]
  · unfold root_dname
    rw [readAt_writeAt_after _ _ _ _ _ (by rw [e4, hoff]; omega),
      readAt_writeAt_before _ _ _ _ _ (by omega)
        (by rw [length_writeAt, hL, hoff]; simp only [MAX_FILENAME]; omega)]
    have hsplit : MAX_FILENAME + 1 = (cstr name ++ [0]).length + (8 - name.length) := by
      rw [hcs]; simp only [MAX_FILENAME, List.length_append, List.length_singleton]; omega
    rw [hsplit, readAt_add, readAt_writeAt_same, hcs, List.append_assoc]
    exact cstr_append_nul name _ hname
  · unfold root_nStartBlock
    rw [readAt_writeAt_after _ _ _ _ _ (by rw [e4, hoff]; omega)]
    have := readAt_writeAt_same (writeAt root (dirOffset k) (cstr name ++ [0]))
      (dirOffset k + (MAX_FILENAME + 1)) (encodeInt SIZEOF_LONG b)
    rw [e8] at this
    have h8 : SIZEOF_LONG = 8 := rfl
    rw [h8] at this ⊢
    rw [this]
    exact decodeInt_encodeInt 8 b hb0 (by norm_num; omega)

/-- A lookup that passes `k` entries without a match and then meets the name. -/
theorem disk_offset_of_dir_loop_found (root name : List Nat) (hname : ∀ c ∈ name, c ≠ 0)
    (k : Nat) (hk : k < MAX_DIRS_IN_ROOT)
    (hmiss : ∀ j, j < k → name ≠ cstr (root_dname root j))
    (hhit : cstr (root_dname root k) = name) :
    ∀ (m i : Nat), i + m = k → ∀ extra,
      disk_offset_of_dir_loop root name (m + 1 + extra) i = .ok (root_nStartBlock root k) := by
  have hcs : cstr name = name := cstr_of_no_nul name hname
  intro m
  induction m with
  | zero =>
    intro i hi extra
    have : i = k := by omega
    subst this
    rw [show 0 + 1 + extra = extra + 1 by omega, disk_offset_of_dir_loop]
    rw [if_neg (by omega), hcs, hhit, if_pos rfl]
  | succ m ih =>
    intro i hi extra
    rw [show m + 1 + 1 + extra = (m + 1 + extra) + 1 by omega, disk_offset_of_dir_loop]
    rw [if_neg (by omega), hcs, if_neg (hmiss i (by omega))]
    exact ih (i + 1) (by omega) extra

/-! ### Streams, and what a successful `disk_add_dir` did -/

theorem fseek_END_bitmap (fd : FILE) :
    fseek_END (-(5 * BLOCK_SIZE : Nat)) fd =
      if fd.data.length < 5 * BLOCK_SIZE then (-1, fd)
      else (0, { fd with pos := fd.data.length - 5 * BLOCK_SIZE }) := by
  unfold fseek_END
  by_cases h : fd.data.length < 5 * BLOCK_SIZE
  · rw [if_pos h, if_pos (by omega)]
  · have ht : ((fd.data.length : Int) + -((5 * BLOCK_SIZE : Nat) : Int)).toNat
        = fd.data.length - 5 * BLOCK_SIZE := by omega
    rw [if_neg h, if_neg (by omega), ht]

theorem fseek_SET_nonneg (off : Int) (fd : FILE) (h : 0 ≤ off) :
    fseek_SET off fd = (0, { fd with pos := off.toNat }) := by
  unfold fseek_SET
  rw [if_neg (by omega)]

theorem fseek_SET_neg (off : Int) (fd : FILE) (h : off < 0) :
    fseek_SET off fd = (-1, fd) := by
  unfold fseek_SET
  rw [if_pos h]

theorem fread_eq (n : Nat) (d : List Nat) (p : Nat) :
    fread n { data := d, pos := p }
      = (readAt d p n, { data := d, pos := p + (readAt d p n).length }) := rfl

theorem fwrite_eq (bs : List Nat) (d : List Nat) (p : Nat) :
    fwrite bs { data := d, pos := p }
      = (bs.length, { data := writeAt d p bs, pos := p + bs.length }) := rfl

theorem not_fail_eq_ok (fd fd1 : FILE) :
    ¬ ((Except.ok ((-1 : Int), fd) : Except Fault (Int × FILE)) = .ok (0, fd1)) := by
  intro h
  injection h with h
  injection h with h1 _
  exact absurd h1 (by decide)

theorem disk_add_dir_ok (fuel : Nat) (new_dir : List Nat) (fd : FILE) (name : List Nat)
    (fd1 : FILE) (h : disk_add_dir fuel new_dir fd name = .ok (0, fd1)) :
    ∃ (b : Int) (bm1 root1 : List Nat),
      5 * BLOCK_SIZE ≤ fd.data.length
      ∧ find_free_block_loop fuel
          (readAt fd.data (fd.data.length - 5 * BLOCK_SIZE) (5 * BLOCK_SIZE)) (BITMAP_LAST - 1) 1
          = .ok (b, bm1)
      ∧ b ≠ 0
      ∧ root_add_entry (readAt (fd.data ++ bm1) 0 BLOCK_SIZE) name b = .ok root1
      ∧ new_dir.length = BLOCK_SIZE
      ∧ fd1.data = writeAt (writeAt (fd.data ++ bm1) 0 root1) (b * BLOCK_SIZE).toNat new_dir := by
  unfold disk_add_dir at h
  by_cases hlen : fd.data.length < 5 * BLOCK_SIZE
  · simp only [fseek_END_bitmap, if_pos hlen] at h
    rw [if_neg (show ¬ ((-1 : Int) = 0) by decide)] at h
    exact absurd h (not_fail_eq_ok _ _)
  · simp only [fseek_END_bitmap, if_neg hlen] at h
    rw [if_pos trivial, fread_eq] at h
    dsimp only at h
    have hbl : (readAt fd.data (fd.data.length - 5 * BLOCK_SIZE) (5 * BLOCK_SIZE)).length
        = BITMAP_LAST + 1 := by
      rw [length_readAt]
      have : BITMAP_LAST + 1 = 5 * BLOCK_SIZE := rfl
      omega
    rw [if_pos hbl] at h
    have hpos : fd.data.length - 5 * BLOCK_SIZE
        + (readAt fd.data (fd.data.length - 5 * BLOCK_SIZE) (5 * BLOCK_SIZE)).length
        = fd.data.length := by
      rw [hbl]
      have : BITMAP_LAST + 1 = 5 * BLOCK_SIZE := rfl
      omega
    rw [hpos] at h
    rcases hff : find_free_block fuel { data := fd.data, pos := fd.data.length }
        (readAt fd.data (fd.data.length - 5 * BLOCK_SIZE) (5 * BLOCK_SIZE)) with e | ⟨b, bm1, fd3⟩
    · rw [hff] at h
      cases h
    · rw [hff] at h
      dsimp only at h
      obtain ⟨hloop, hfd3⟩ := find_free_block_inv _ _ _ _ _ _ hff
      rw [fwrite_eq, writeAt_end] at hfd3
      dsimp only at hfd3
      subst hfd3
      by_cases hb : b ≠ 0
      · rw [if_pos hb, fseek_SET_nonneg 0 _ (le_refl 0)] at h
        dsimp only at h
        rw [if_pos rfl, fread_eq] at h
        dsimp only at h
        have hz : Int.toNat 0 = 0 := rfl
        rw [hz] at h
        by_cases hrl : (readAt (fd.data ++ bm1) 0 BLOCK_SIZE).length = BLOCK_SIZE
        · rw [if_pos hrl] at h
          rcases hadd : root_add_entry (readAt (fd.data ++ bm1) 0 BLOCK_SIZE) name b with
            e | root1
          · rw [hadd] at h
            cases h
          · rw [hadd] at h
            dsimp only at h
            rw [fseek_SET_nonneg 0 _ (le_refl 0)] at h
            dsimp only at h
            rw [if_pos rfl, fwrite_eq] at h
            dsimp only at h
            by_cases hw : root1.length = BLOCK_SIZE
            · rw [if_pos hw] at h
              by_cases hs : b * (BLOCK_SIZE : Int) < 0
              · rw [fseek_SET_neg _ _ hs] at h
                dsimp only at h
                rw [if_neg (show ¬ ((-1 : Int) = 0) by decide)] at h
                exact absurd h (not_fail_eq_ok _ _)
              · rw [fseek_SET_nonneg _ _ (not_lt.mp hs)] at h
                dsimp only at h
                rw [if_pos rfl, fwrite_eq] at h
                dsimp only at h
                by_cases hnd : new_dir.length = BLOCK_SIZE
                · rw [if_pos hnd] at h
                  injection h with h
                  injection h with _ h
                  refine ⟨b, bm1, root1, not_lt.mp hlen, hloop, hb, hadd, hnd, ?_⟩
                  rw [← h]
                  rfl
                · rw [if_neg hnd] at h
                  exact absurd h (not_fail_eq_ok _ _)
            · rw [if_neg hw] at h
              exact absurd h (not_fail_eq_ok _ _)
        · rw [if_neg hrl] at h
          exact absurd h (not_fail_eq_ok _ _)
      · rw [if_neg hb] at h
        exact absurd h (not_fail_eq_ok _ _)

/-! ### Parsing -/

theorem takeWhile_append_stop (p : Nat → Bool) (s : List Nat) (x : Nat) (t : List Nat)
    (hs : ∀ c ∈ s, p c = true) (hx : p x = false) :
    (s ++ x :: t).takeWhile p = s ∧ (s ++ x :: t).dropWhile p = x :: t := by
  induction s with
  | nil => simp [List.takeWhile_cons, List.dropWhile_cons, hx]
  | cons a r ih =>
    have ha : p a = true := hs a (List.mem_cons_self _ _)
    have := ih (fun c hc => hs c (List.mem_cons_of_mem _ hc))
    simp [List.takeWhile_cons, List.dropWhile_cons, ha, this]

theorem takeWhile_all (p : Nat → Bool) (s : List Nat) (hs : ∀ c ∈ s, p c = true) :
    s.takeWhile p = s ∧ s.dropWhile p = [] := by
  induction s with
  | nil => simp
  | cons a r ih =>
    have ha : p a = true := hs a (List.mem_cons_self _ _)
    have := ih (fun c hc => hs c (List.mem_cons_of_mem _ hc))
    simp [List.takeWhile_cons, List.dropWhile_cons, ha, this]

/-- Parsing `"/name"`. -/
theorem parsing_dir (name : List Nat) (hv : validName name) :
    parsing (47 :: name) = (name, [], []) := by
  obtain ⟨hne, hc⟩ := hv
  have hcs : cstr (47 :: name) = 47 :: name :=
    cstr_of_no_nul _ (by
      intro c hcm
      rcases List.mem_cons.mp hcm with h | h
      · rw [h]; decide
      · exact (hc c h).1)
  have htw := takeWhile_all (fun c => decide (c ≠ 47)) name
    (fun c hcm => decide_eq_true (hc c hcm).2)
  unfold parsing
  rw [hcs]
  simp only [htw.1, htw.2, hne, if_false]

/-- Parsing `"/name/..."`: the first component, and what `%[^.]` scans of the rest. -/
theorem parsing_nested (name rest : List Nat) (hv : validName name) :
    (parsing (47 :: name ++ 47 :: rest)).1 = name
      ∧ (parsing (47 :: name ++ 47 :: rest)).2.1 = (cstr rest).takeWhile (fun c => c ≠ 46) := by
  obtain ⟨hne, hc⟩ := hv
  have hcs : cstr (47 :: name ++ 47 :: rest) = 47 :: (name ++ 47 :: cstr rest) := by
    unfold cstr
    have h1 := takeWhile_all (fun c => decide (c ≠ 0)) name
      (fun c hcm => decide_eq_true (hc c hcm).1)
    simp only [List.cons_append, List.takeWhile_cons, ne_eq, show ¬ ((47 : Nat) = 0) by decide,
      not_false_eq_true, decide_True, if_true]
    congr 1
    induction name with
    | nil => simp [List.takeWhile_cons]
    | cons a r ih =>
      have ha : a ≠ 0 := (hc a (List.mem_cons_self _ _)).1
      by_cases hr : r = []
      · subst hr
        simp [List.takeWhile_cons, ha]
      · have h2 := takeWhile_all (fun c => decide (c ≠ 0)) r
          (fun c hcm => decide_eq_true (hc c (List.mem_cons_of_mem _ hcm)).1)
        simp only [List.cons_append, List.takeWhile_cons, ne_eq, ha, not_false_eq_true,
          decide_True, if_true]
        congr 1
        exact ih hr (fun c hcm => hc c (List.mem_cons_of_mem _ hcm)) h2
  have htw := takeWhile_append_stop (fun c => decide (c ≠ 47)) name 47 (cstr rest)
    (fun c hcm => decide_eq_true (hc c hcm).2) (by decide)
  unfold parsing
  rw [hcs]
  simp only [htw.1, htw.2, hne, if_false]
  by_cases hf : (cstr rest).takeWhile (fun c => decide (c ≠ 46)) = []
  · simp only [hf, if_true]
    exact ⟨trivial, trivial⟩
  · simp only [hf, if_false]
    split <;> exact ⟨rfl, rfl⟩

/-! ### The two operations on a path of one component -/

theorem validName_head (name : List Nat) (hv : validName name) : name.getD 0 0 ≠ 0 := by
  obtain ⟨hne, hc⟩ := hv
  cases name with
  | nil => exact absurd rfl hne
  | cons a r => simpa using (hc a (List.mem_cons_self _ _)).1

theorem getD_of_short (name : List Nat) (hl : name.length ≤ MAX_FILENAME) :
    name.getD MAX_FILENAME 0 = 0 :=
  List.getD_eq_default _ _ hl

theorem disk_offset_of_dir_data (fd : FILE) (name : List Nat) (r : Int) (fd1 : FILE)
    (h : disk_offset_of_dir fd name = .ok (r, fd1)) : fd1.data = fd.data := by
  unfold disk_offset_of_dir at h
  dsimp only at h
  split at h
  · split at h
    · cases h
    · injection h with h
      injection h with _ h
      rw [← h]; rfl
  · injection h with h
    injection h with _ h
    rw [← h]; rfl

theorem disk_offset_of_dir_open (img name : List Nat) (hlen : BLOCK_SIZE ≤ img.length) :
    disk_offset_of_dir { data := img, pos := 0 } name =
      match disk_offset_of_dir_loop (readAt img 0 BLOCK_SIZE) name
          (root_nDirectories (readAt img 0 BLOCK_SIZE)).toNat 0 with
      | .error e => .error e
      | .ok r => .ok (r, { data := img, pos := BLOCK_SIZE }) := by
  have hrl : (readAt img 0 BLOCK_SIZE).length = BLOCK_SIZE := by
    rw [length_readAt]; omega
  unfold disk_offset_of_dir
  rw [fread_eq]
  dsimp only
  rw [if_pos hrl, hrl, Nat.zero_add]

/-- Behaviour of `cs1550_mkdir` on `"/name"` for a name that fits: the lookup, then the
append. -/
theorem cs1550_mkdir_dir (fuel : Nat) (new_dir name img : List Nat) (hv : validName name)
    (hl : name.length ≤ MAX_FILENAME) :
    cs1550_mkdir fuel new_dir (47 :: name) (some img) =
      match disk_offset_of_dir { data := img, pos := 0 } name with
      | .error e => .error e
      | .ok (found, fd1) =>
        if found ≠ 0 then .ok (-EEXIST, some fd1.data)
        else
          match disk_add_dir fuel new_dir fd1 name with
          | .error e => .error e
          | .ok (ret, fd2) => .ok (ret, some fd2.data) := by
  unfold cs1550_mkdir
  rw [parsing_dir name hv]
  dsimp only
  have h8 := getD_of_short name hl
  have h0 := validName_head name hv
  have hf : ([] : List Nat).getD 0 0 = 0 := rfl
  rw [if_neg (by rw [h8]; exact fun h => h rfl), if_neg (by rw [hf]; exact fun h => h rfl),
    if_pos ⟨h0, h8, hf⟩]
  rfl

/-- Behaviour of `cs1550_getattr` on `"/name"` for a name that fits: the lookup decides. -/
theorem cs1550_getattr_dir (name img : List Nat) (hv : validName name)
    (hl : name.length ≤ MAX_FILENAME) :
    cs1550_getattr (47 :: name) (some img) =
      match disk_offset_of_dir { data := img, pos := 0 } name with
      | .error e => .error e
      | .ok (dir_pos, _) =>
        if dir_pos ≠ 0 then
          .ok (0, { st_mode := S_IFDIR ||| 0o755, st_nlink := 2, st_size := 0 })
        else .ok (-ENOENT, { st_mode := 0, st_nlink := 0, st_size := 0 }) := by
  obtain ⟨hne, hc⟩ := hv
  have hcs : cstr (47 :: name) ≠ [47] := by
    rw [cstr_of_no_nul _ (by
      intro c hcm
      rcases List.mem_cons.mp hcm with h | h
      · rw [h]; decide
      · exact (hc c h).1)]
    intro h
    injection h with _ h
    exact hne h
  unfold cs1550_getattr
  rw [if_neg hcs, parsing_dir name ⟨hne, hc⟩]
  dsimp only
  have h8 := getD_of_short name hl
  have h0 := validName_head name ⟨hne, hc⟩
  have hf : ([] : List Nat).getD 0 0 = 0 := rfl
  have hf8 : ([] : List Nat).getD MAX_FILENAME 0 = 0 := rfl
  have hf3 : ([] : List Nat).getD MAX_EXTENSION 0 = 0 := rfl
  rw [if_pos ⟨h0, h8, hf8, hf3⟩]
  simp only [fopen, Option.map_some', hf, if_true]

/-! ### Lookups in the root table -/

theorem root_add_entry_guard (root name : List Nat) (b : Int) (root1 : List Nat)
    (h : root_add_entry root name b = .ok root1) :
    ∃ k : Nat, root_nDirectories root = (k : Int) ∧ k < MAX_DIRS_IN_ROOT
      ∧ (cstr name).length ≤ MAX_FILENAME := by
  unfold root_add_entry at h
  dsimp only at h
  split at h
  · cases h
  · rename_i hg
    push_neg at hg
    obtain ⟨h1, h2, h3⟩ := hg
    refine ⟨(root_nDirectories root).toNat, (Int.toNat_of_nonneg h1).symm, ?_, h3⟩
    omega

/-- A lookup that returns 0 over slots none of which is stale has met no match. -/
theorem disk_offset_of_dir_loop_miss (root name : List Nat) (hname : ∀ c ∈ name, c ≠ 0) :
    ∀ (m i : Nat), disk_offset_of_dir_loop root name m i = .ok 0 →
      (∀ j, i ≤ j → j < i + m → cstr (root_dname root j) = name → root_nStartBlock root j ≠ 0) →
      ∀ j, i ≤ j → j < i + m → name ≠ cstr (root_dname root j) := by
  have hcs : cstr name = name := cstr_of_no_nul name hname
  intro m
  induction m with
  | zero => intro i _ _ j h1 h2; omega
  | succ m ih =>
    intro i h hst j h1 h2
    rw [disk_offset_of_dir_loop] at h
    split at h
    · cases h
    · split at h
      · rename_i heq
        rw [hcs] at heq
        injection h with h
        exact absurd h (hst i (le_refl _) (by omega) heq.symm)
      · rename_i hne
        rw [hcs] at hne
        by_cases hji : j = i
        · rw [hji]; exact hne
        · exact ih (i + 1) h (fun j1 a b => hst j1 (by omega) (by omega)) j (by omega) (by omega)

/-- A lookup over slots that hold the name, none of them stale, returns a
start block other than 0. -/
theorem disk_offset_of_dir_loop_hit (root name : List Nat) (hname : ∀ c ∈ name, c ≠ 0) :
    ∀ (m i : Nat),
      (∃ j, i ≤ j ∧ j < i + m ∧ j < MAX_DIRS_IN_ROOT ∧ cstr (root_dname root j) = name) →
      (∀ j, i ≤ j → j < i + m → j < MAX_DIRS_IN_ROOT → cstr (root_dname root j) = name →
        root_nStartBlock root j ≠ 0) →
      ∃ r, r ≠ 0 ∧ disk_offset_of_dir_loop root name m i = .ok r := by
  have hcs : cstr name = name := cstr_of_no_nul name hname
  intro m
  induction m with
  | zero => intro i ⟨j, h1, h2, _⟩ _; omega
  | succ m ih =>
    intro i ⟨j, h1, h2, h3, h4⟩ hst
    rw [disk_offset_of_dir_loop, if_neg (by omega), hcs]
    by_cases heq : name = cstr (root_dname root i)
    · rw [if_pos heq]
      exact ⟨_, hst i (le_refl _) (by omega) (by omega) heq.symm, rfl⟩
    · rw [if_neg heq]
      have hji : j ≠ i := fun e => heq (by rw [← e, h4])
      exact ih (i + 1) ⟨j, by omega, by omega, h3, h4⟩
        (fun j1 a b c => hst j1 (by omega) (by omega) c)

/-! ### What a successful `cs1550_mkdir` did -/

theorem readAt_append_left (d e : List Nat) (o len : Nat) (h : o + len ≤ d.length) :
    readAt (d ++ e) o len = readAt d o len := by
  apply List.ext_getElem?
  intro i
  rw [getElem?_readAt, getElem?_readAt]
  by_cases hi : i < len
  · rw [if_pos hi, if_pos hi, List.getElem?_append_left (by omega)]
  · rw [if_neg hi, if_neg hi]

/-- What a successful `cs1550_mkdir("/name")` has done to the image. -/
theorem cs1550_mkdir_ok (fuel : Nat) (new_dir name img : List Nat) (d1 : Option (List Nat))
    (hv : validName name) (hl : name.length ≤ MAX_FILENAME)
    (hmk : cs1550_mkdir fuel new_dir (47 :: name) (some img) = .ok (0, d1)) :
    ∃ (b : Int) (bm1 root1 : List Nat),
      5 * BLOCK_SIZE ≤ img.length
      ∧ disk_offset_of_dir_loop (readAt img 0 BLOCK_SIZE) name
          (root_nDirectories (readAt img 0 BLOCK_SIZE)).toNat 0 = .ok 0
      ∧ find_free_block_loop fuel
          (readAt img (img.length - 5 * BLOCK_SIZE) (5 * BLOCK_SIZE)) (BITMAP_LAST - 1) 1
          = .ok (b, bm1)
      ∧ b ≠ 0
      ∧ root_add_entry (readAt img 0 BLOCK_SIZE) name b = .ok root1
      ∧ new_dir.length = BLOCK_SIZE
      ∧ d1 = some (writeAt (writeAt (img ++ bm1) 0 root1) (b * BLOCK_SIZE).toNat new_dir) := by
  rw [cs1550_mkdir_dir fuel new_dir name img hv hl] at hmk
  rcases hlook : disk_offset_of_dir { data := img, pos := 0 } name with e | ⟨found, fd1⟩
  · rw [hlook] at hmk; cases hmk
  · rw [hlook] at hmk
    dsimp only at hmk
    have hdata := disk_offset_of_dir_data _ _ _ _ hlook
    dsimp only at hdata
    by_cases hfound : found ≠ 0
    · rw [if_pos hfound] at hmk
      injection hmk with hmk
      injection hmk with h1 _
      exact absurd h1 (by decide)
    · rw [if_neg hfound] at hmk
      rcases hadd : disk_add_dir fuel new_dir fd1 name with e | ⟨ret, fd2⟩
      · rw [hadd] at hmk; cases hmk
      · rw [hadd] at hmk
        dsimp only at hmk
        injection hmk with hmk
        injection hmk with h1 h2
        subst h1
        obtain ⟨b, bm1, root1, g1, g2, g3, g4, g5, g6⟩ := disk_add_dir_ok _ _ _ _ _ hadd
        rw [hdata] at g1 g2 g4 g6
        have hB : BLOCK_SIZE ≤ img.length := by
          have : BLOCK_SIZE = 512 := rfl
          omega
        rw [readAt_append_left _ _ _ _ (by omega)] at g4
        rw [disk_offset_of_dir_open img name hB] at hlook
        rcases hl2 : disk_offset_of_dir_loop (readAt img 0 BLOCK_SIZE) name
            (root_nDirectories (readAt img 0 BLOCK_SIZE)).toNat 0 with e | r
        · rw [hl2] at hlook; cases hlook
        · rw [hl2] at hlook
          dsimp only at hlook
          injection hlook with hlook
          injection hlook with h3 _
          have hr0 : r = 0 := by
            rw [h3]; exact not_not.mp hfound
          exact ⟨b, bm1, root1, g1, by rw [hr0], g2, g3, g4, g5, by rw [← h2, g6]⟩

theorem find_free_block_loop_bounds (fuel : Nat) (bitmap : List Nat) (b : Int)
    (bm1 : List Nat)
    (h : find_free_block_loop fuel bitmap (BITMAP_LAST - 1) 1 = .ok (b, bm1)) (hb : b ≠ 0) :
    8 ≤ b ∧ b ≤ 8 * (BITMAP_LAST : Int) - 1 := by
  have hB : BITMAP_LAST = 2559 := rfl
  rcases find_free_block_loop_range fuel bitmap _ _ _ _ h with ⟨h0, _⟩ | ⟨j, h1, h2, h3, h4, _⟩
  · exact absurd h0 hb
  · rw [hB] at h2 ⊢
    push_cast
    omega

/-- The first block of the image after a successful `cs1550_mkdir("/name")`: the
old root with the name appended, the count one higher, old entries untouched. -/
theorem cs1550_mkdir_root (fuel : Nat) (new_dir name img img1 : List Nat)
    (hv : validName name) (hl : name.length ≤ MAX_FILENAME)
    (hmk : cs1550_mkdir fuel new_dir (47 :: name) (some img) = .ok (0, some img1)) :
    ∃ (k : Nat) (b : Int),
      k < MAX_DIRS_IN_ROOT ∧ 8 ≤ b ∧ b ≤ 8 * (BITMAP_LAST : Int) - 1
      ∧ BLOCK_SIZE ≤ img1.length
      ∧ root_nDirectories (readAt img 0 BLOCK_SIZE) = (k : Int)
      ∧ disk_offset_of_dir_loop (readAt img 0 BLOCK_SIZE) name k 0 = .ok 0
      ∧ root_nDirectories (readAt img1 0 BLOCK_SIZE) = (k : Int) + 1
      ∧ (∀ j, j < k →
          root_dname (readAt img1 0 BLOCK_SIZE) j = root_dname (readAt img 0 BLOCK_SIZE) j
          ∧ root_nStartBlock (readAt img1 0 BLOCK_SIZE) j
              = root_nStartBlock (readAt img 0 BLOCK_SIZE) j)
      ∧ cstr (root_dname (readAt img1 0 BLOCK_SIZE) k) = name
      ∧ root_nStartBlock (readAt img1 0 BLOCK_SIZE) k = b
      ∧ readAt img1 (b * BLOCK_SIZE).toNat BLOCK_SIZE = new_dir
      ∧ ∃ bm1, find_free_block_loop fuel
          (readAt img (img.length - 5 * BLOCK_SIZE) (5 * BLOCK_SIZE)) (BITMAP_LAST - 1) 1
          = .ok (b, bm1) := by
  obtain ⟨b, bm1, root1, g1, g2, g3, g4, g5, g6, g7⟩ :=
    cs1550_mkdir_ok fuel new_dir name img (some img1) hv hl hmk
  have hBS : BLOCK_SIZE = 512 := rfl
  have hname : ∀ c ∈ name, c ≠ 0 := fun c hc => (hv.2 c hc).1
  have hrl : (readAt img 0 BLOCK_SIZE).length = BLOCK_SIZE := by
    rw [length_readAt]; omega
  obtain ⟨k, hn, hk, _⟩ := root_add_entry_guard _ _ _ _ g5
  obtain ⟨hb8, hbmax⟩ := find_free_block_loop_bounds _ _ _ _ g3 g4
  have hB : BITMAP_LAST = 2559 := rfl
  obtain ⟨root2, r1, r2, r3, r4, r5, r6⟩ :=
    root_add_entry_spec (readAt img 0 BLOCK_SIZE) name b k hrl hn hk hname hl (by omega)
      (by rw [hB] at hbmax; push_cast at hbmax; omega)
  rw [g5] at r1
  injection r1 with r1
  subst r1
  injection g7 with g7
  have hoff : 512 ≤ (b * (BLOCK_SIZE : Int)).toNat := by
    rw [hBS]; omega
  have hX : BLOCK_SIZE ≤ (writeAt (img ++ bm1) 0 root1).length := by
    rw [length_writeAt, r2]; omega
  have hroot : readAt img1 0 BLOCK_SIZE = root1 := by
    rw [g7, readAt_writeAt_before _ _ _ _ _ (by rw [hBS]; omega) (by omega)]
    have := readAt_writeAt_same (img ++ bm1) 0 root1
    rw [r2] at this
    exact this
  have hnew : readAt img1 (b * (BLOCK_SIZE : Int)).toNat BLOCK_SIZE = new_dir := by
    have := readAt_writeAt_same (writeAt (img ++ bm1) 0 root1) (b * (BLOCK_SIZE : Int)).toNat
      new_dir
    rw [g6] at this
    rw [g7]
    exact this
  have hlen1 : BLOCK_SIZE ≤ img1.length := by
    rw [g7, length_writeAt]; omega
  rw [hn, Int.toNat_ofNat] at g2
  rw [hroot]
  exact ⟨k, b, hk, hb8, hbmax, hlen1, hn, g2, r3, r4, r5, r6, hnew, bm1, g3⟩

/-! ### Directory creation followed by attribute lookup -/

/-- C1 (amended): for every directory name of 1 to 8 bytes (none of them NUL or
`/`) and every disk image whose root table does not list that name with start
block 0, whenever `cs1550_mkdir("/name")` returns 0, `cs1550_getattr("/name")` on the
resulting image returns 0 and reports a directory (`S_IFDIR | 0755`, 2 links). -/
theorem mkdir_then_getattr_reports_directory (fuel : Nat) (new_dir name img : List Nat)
    (d1 : Option (List Nat)) (hv : validName name) (hl : name.length ≤ MAX_FILENAME)
    (hst : ¬ staleEntry img name)
    (hmk : cs1550_mkdir fuel new_dir (47 :: name) (some img) = .ok (0, d1)) :
    cs1550_getattr (47 :: name) d1
      = .ok (0, { st_mode := S_IFDIR ||| 0o755, st_nlink := 2, st_size := 0 }) := by
  obtain ⟨_, _, _, _, _, _, _, _, _, hd1⟩ :=
    cs1550_mkdir_ok fuel new_dir name img d1 hv hl hmk
  generalize writeAt _ _ _ = img1 at hd1
  subst hd1
  obtain ⟨k, b, hk, hb8, _, hlen1, hn, hlook, hn1, hold, hnew, hblk, _, _⟩ :=
    cs1550_mkdir_root fuel new_dir name img img1 hv hl hmk
  have hname : ∀ c ∈ name, c ≠ 0 := fun c hc => (hv.2 c hc).1
  have hmiss := disk_offset_of_dir_loop_miss (readAt img 0 BLOCK_SIZE) name hname k 0 hlook
    (fun j _ hj hcj hz => hst ⟨j, by rw [hn]; exact_mod_cast (by omega : j < k),
      by omega, hcj, hz⟩)
  have hfound := disk_offset_of_dir_loop_found (readAt img1 0 BLOCK_SIZE) name hname k hk
    (fun j hj => by rw [(hold j hj).1]; exact hmiss j (Nat.zero_le _) (by omega)) hnew
    k 0 (Nat.zero_add k) 0
  have hcount : (root_nDirectories (readAt img1 0 BLOCK_SIZE)).toNat = k + 1 + 0 := by
    rw [hn1]; omega
  rw [cs1550_getattr_dir name img1 hv hl, disk_offset_of_dir_open img1 name hlen1, hcount,
    hfound, hblk]
  dsimp only
  rw [if_pos (by omega)]

/-- C2 (amended): for every disk image (with a root block) and every directory
name that its root table lists, and lists in no slot with start block 0,
`cs1550_mkdir("/name")` returns `-EEXIST` and leaves the image as it was, byte for
byte (so the count `nDirectories` and the bitmap are unchanged). -/
theorem mkdir_existing_name_eexist (fuel : Nat) (new_dir name img : List Nat)
    (hv : validName name) (hl : name.length ≤ MAX_FILENAME) (hlen : BLOCK_SIZE ≤ img.length)
    (hp : present img name) (hst : ¬ staleEntry img name) :
    cs1550_mkdir fuel new_dir (47 :: name) (some img) = .ok (-EEXIST, some img) := by
  have hname : ∀ c ∈ name, c ≠ 0 := fun c hc => (hv.2 c hc).1
  obtain ⟨j, hj1, hj2, hj3⟩ := hp
  obtain ⟨r, hr, hloop⟩ := disk_offset_of_dir_loop_hit (readAt img 0 BLOCK_SIZE) name hname
    (root_nDirectories (readAt img 0 BLOCK_SIZE)).toNat 0
    ⟨j, Nat.zero_le _, by omega, hj2, hj3⟩
    (fun j1 _ h1 h2 h3 hz => hst ⟨j1, by omega, h2, h3, hz⟩)
  rw [cs1550_mkdir_dir fuel new_dir name img hv hl, disk_offset_of_dir_open img name hlen,
    hloop]
  dsimp only
  rw [if_pos hr]

/-- After a successful `cs1550_mkdir("/name")` on an image without a stale entry of that
name, a second `cs1550_mkdir("/name")` returns `-EEXIST` and leaves the image as the first
call left it. -/
theorem mkdir_twice_second_eexist (fuel fuel2 : Nat) (new_dir new_dir2 name img img1 : List Nat)
    (hv : validName name) (hl : name.length ≤ MAX_FILENAME) (hst : ¬ staleEntry img name)
    (hmk : cs1550_mkdir fuel new_dir (47 :: name) (some img) = .ok (0, some img1)) :
    cs1550_mkdir fuel2 new_dir2 (47 :: name) (some img1) = .ok (-EEXIST, some img1) := by
  obtain ⟨k, b, hk, hb8, _, hlen1, hn, _, hn1, hold, hnew, hblk, _, _⟩ :=
    cs1550_mkdir_root fuel new_dir name img img1 hv hl hmk
  have hname : ∀ c ∈ name, c ≠ 0 := fun c hc => (hv.2 c hc).1
  obtain ⟨r, hr, hloop⟩ := disk_offset_of_dir_loop_hit (readAt img1 0 BLOCK_SIZE) name hname
    (root_nDirectories (readAt img1 0 BLOCK_SIZE)).toNat 0
    ⟨k, Nat.zero_le _, by rw [hn1]; omega, hk, hnew⟩
    (fun j _ h1 h2 h3 hz => by
      rw [hn1] at h1
      by_cases hjk : j = k
      · rw [hjk, hblk] at hz
        omega
      · have hj : j < k := by omega
        rw [(hold j hj).1] at h3
        rw [(hold j hj).2] at hz
        exact hst ⟨j, by rw [hn]; exact_mod_cast hj, h2, h3, hz⟩)
  rw [cs1550_mkdir_dir fuel2 new_dir2 name img1 hv hl, disk_offset_of_dir_open img1 name hlen1,
    hloop]
  dsimp only
  rw [if_pos hr]

/-! ### Running `cs1550_mkdir` forward -/

theorem root_add_entry_length (root name : List Nat) (b : Int) (root1 : List Nat)
    (hlen : root.length = BLOCK_SIZE) (h : root_add_entry root name b = .ok root1) :
    root1.length = BLOCK_SIZE := by
  obtain ⟨k, hn, hk, hc⟩ := root_add_entry_guard root name b root1 h
  have hM : MAX_DIRS_IN_ROOT = 29 := rfl
  have hF : MAX_FILENAME = 8 := rfl
  have hBS : BLOCK_SIZE = 512 := rfl
  have hcond : ¬ ((k : Int) < 0 ∨ (MAX_DIRS_IN_ROOT : Int) ≤ (k : Int)
      ∨ MAX_FILENAME < (cstr name).length) := by
    have hk29 : k < 29 := hk
    have hc8 : (cstr name).length ≤ 8 := hc
    rw [hM, hF]
    omega
  unfold root_add_entry at h
  simp only [hn, hcond, if_false, Int.toNat_ofNat] at h
  injection h with h
  have hoff : dirOffset k = 4 + k * 17 := rfl
  have e8 : (encodeInt SIZEOF_LONG b).length = 8 := length_encodeInt _ _
  have e4 : (encodeInt SIZEOF_INT ((k : Int) + 1)).length = 4 := length_encodeInt _ _
  rw [← h]
  simp only [length_writeAt, e8, e4, List.length_append, List.length_singleton, hoff,
    hlen, hF, hBS]
  rw [hF] at hc
  omega

/-- Behaviour of `disk_add_dir` when every step succeeds. -/
theorem disk_add_dir_run (fuel : Nat) (new_dir name img : List Nat) (p : Nat) (b : Int)
    (bm1 root1 : List Nat) (hlen : 5 * BLOCK_SIZE ≤ img.length)
    (hloop : find_free_block_loop fuel
      (readAt img (img.length - 5 * BLOCK_SIZE) (5 * BLOCK_SIZE)) (BITMAP_LAST - 1) 1
      = .ok (b, bm1))
    (hb : b ≠ 0)
    (hadd : root_add_entry (readAt img 0 BLOCK_SIZE) name b = .ok root1)
    (hnd : new_dir.length = BLOCK_SIZE) :
    disk_add_dir fuel new_dir { data := img, pos := p } name
      = .ok (0, { data := writeAt (writeAt (img ++ bm1) 0 root1) (b * BLOCK_SIZE).toNat new_dir,
                  pos := (b * BLOCK_SIZE).toNat + new_dir.length }) := by
  have hBS : BLOCK_SIZE = 512 := rfl
  have hbl : (readAt img (img.length - 5 * BLOCK_SIZE) (5 * BLOCK_SIZE)).length
      = BITMAP_LAST + 1 := by
    rw [length_readAt]
    have : BITMAP_LAST + 1 = 5 * BLOCK_SIZE := rfl
    omega
  have hpos : img.length - 5 * BLOCK_SIZE
      + (readAt img (img.length - 5 * BLOCK_SIZE) (5 * BLOCK_SIZE)).length = img.length := by
    rw [hbl]
    have : BITMAP_LAST + 1 = 5 * BLOCK_SIZE := rfl
    omega
  have hrl : (readAt img 0 BLOCK_SIZE).length = BLOCK_SIZE := by
    rw [length_readAt]; omega
  have hroot : readAt (img ++ bm1) 0 BLOCK_SIZE = readAt img 0 BLOCK_SIZE :=
    readAt_append_left _ _ _ _ (by omega)
  have hr1 := root_add_entry_length _ _ _ _ hrl hadd
  obtain ⟨hb8, _⟩ := find_free_block_loop_bounds _ _ _ _ hloop hb
  have hff := find_free_block_eq fuel { data := img, pos := img.length } _ _ _ hloop
  rw [fwrite_eq, writeAt_end] at hff
  dsimp only at hff
  unfold disk_add_dir
  simp only [fseek_END_bitmap, if_neg (not_lt.mpr hlen)]
  rw [if_pos trivial, fread_eq]
  dsimp only
  rw [if_pos hbl, hpos, hff]
  dsimp only
  rw [if_pos hb, fseek_SET_nonneg 0 _ (le_refl 0)]
  dsimp only
  rw [if_pos rfl, fread_eq]
  dsimp only
  have hz : Int.toNat 0 = 0 := rfl
  rw [hz, hroot, if_pos hrl, hadd]
  dsimp only
  rw [fseek_SET_nonneg 0 _ (le_refl 0)]
  dsimp only
  rw [if_pos rfl, fwrite_eq]
  dsimp only
  rw [if_pos hr1, fseek_SET_nonneg _ _ (by rw [hBS]; push_cast; omega)]
  dsimp only
  rw [if_pos rfl, fwrite_eq]
  dsimp only
  rw [if_pos hnd, hz]

/-- Behaviour of `cs1550_mkdir("/name")` when the name is not found and every step of the
append succeeds. -/
theorem cs1550_mkdir_add (fuel : Nat) (new_dir name img : List Nat) (b : Int)
    (bm1 root1 : List Nat) (hv : validName name) (hl : name.length ≤ MAX_FILENAME)
    (hlen : 5 * BLOCK_SIZE ≤ img.length)
    (hlook : disk_offset_of_dir_loop (readAt img 0 BLOCK_SIZE) name
      (root_nDirectories (readAt img 0 BLOCK_SIZE)).toNat 0 = .ok 0)
    (hloop : find_free_block_loop fuel
      (readAt img (img.length - 5 * BLOCK_SIZE) (5 * BLOCK_SIZE)) (BITMAP_LAST - 1) 1
      = .ok (b, bm1))
    (hb : b ≠ 0)
    (hadd : root_add_entry (readAt img 0 BLOCK_SIZE) name b = .ok root1)
    (hnd : new_dir.length = BLOCK_SIZE) :
    cs1550_mkdir fuel new_dir (47 :: name) (some img)
      = .ok (0, some (writeAt (writeAt (img ++ bm1) 0 root1) (b * BLOCK_SIZE).toNat new_dir)) := by
  have hBS : BLOCK_SIZE = 512 := rfl
  rw [cs1550_mkdir_dir fuel new_dir name img hv hl,
    disk_offset_of_dir_open img name (by omega), hlook]
  dsimp only
  rw [if_neg (fun h => h rfl),
    disk_add_dir_run fuel new_dir name img BLOCK_SIZE b bm1 root1 hlen hloop hb hadd hnd]

/-! ### Images put together from a root block and a bitmap -/

theorem readAt_append_right (d e : List Nat) : readAt (d ++ e) d.length e.length = e := by
  simp [readAt]

theorem imageOf_length (root : List Nat) (m : Nat) (bitmap : List Nat)
    (h : root.length = BLOCK_SIZE) (hb : bitmap.length = 5 * BLOCK_SIZE) :
    (imageOf root m bitmap).length = (m + 6) * BLOCK_SIZE := by
  simp only [imageOf, List.length_append, List.length_replicate, h, hb]
  ring

theorem imageOf_root (root : List Nat) (m : Nat) (bitmap : List Nat)
    (h : root.length = BLOCK_SIZE) :
    readAt (imageOf root m bitmap) 0 BLOCK_SIZE = root := by
  unfold imageOf
  rw [List.append_assoc, readAt_append_left _ _ _ _ (by omega), ← h, readAt_full]

theorem imageOf_bitmap (root : List Nat) (m : Nat) (bitmap : List Nat)
    (h : root.length = BLOCK_SIZE) (hb : bitmap.length = 5 * BLOCK_SIZE) :
    readAt (imageOf root m bitmap) ((imageOf root m bitmap).length - 5 * BLOCK_SIZE)
      (5 * BLOCK_SIZE) = bitmap := by
  have hl := imageOf_length root m bitmap h hb
  have h1 : (imageOf root m bitmap).length - 5 * BLOCK_SIZE
      = (root ++ List.replicate (m * BLOCK_SIZE) 0).length := by
    rw [hl, List.length_append, List.length_replicate, h]
    have : (m + 6) * BLOCK_SIZE = BLOCK_SIZE + m * BLOCK_SIZE + 5 * BLOCK_SIZE := by ring
    omega
  have h2 := readAt_append_right (root ++ List.replicate (m * BLOCK_SIZE) 0) bitmap
  rw [hb] at h2
  rw [h1]
  exact h2

theorem zeroBitmap_length : zeroBitmap.length = 5 * BLOCK_SIZE :=
  List.length_replicate _ _

theorem zeroRoot_length : zeroRoot.length = BLOCK_SIZE :=
  List.length_replicate _ _

theorem rootWith_length (c blk : Nat) : (rootWith c blk).length = BLOCK_SIZE := by
  rw [rootWith, List.length_append, List.length_replicate]
  rfl

/-- The allocator's outer loop on a bitmap whose byte 1 is zero takes block 8. -/
theorem find_free_block_loop_zero (fuel : Nat) (hf : 8 ≤ fuel) (bitmap : List Nat)
    (h1 : bitmap.getD 1 0 = 0) :
    find_free_block_loop fuel bitmap (BITMAP_LAST - 1) 1 = .ok (8, bitmap.set 1 1) := by
  have hB : BITMAP_LAST - 1 = 2557 + 1 := rfl
  have hs := bitSearch_pow 0 (by omega) fuel hf
  rw [hB, find_free_block_loop, h1, if_pos (by omega)]
  have hm : (0 + 1) % 256 = 2 ^ 0 := rfl
  rw [hm]
  dsimp only
  rw [hs]
  rfl

/-- Behaviour of `cs1550_mkdir("/name")` on an image put together by `imageOf`, when the name is
not found, the table has a free slot and the allocator finds a block. -/
theorem cs1550_mkdir_imageOf (fuel : Nat) (new_dir name root : List Nat) (m : Nat)
    (bitmap : List Nat) (k : Nat) (b : Int) (bm1 : List Nat)
    (hv : validName name) (hl : name.length ≤ MAX_FILENAME)
    (hnd : new_dir.length = BLOCK_SIZE) (hr : root.length = BLOCK_SIZE)
    (hbm : bitmap.length = 5 * BLOCK_SIZE)
    (hn : root_nDirectories root = (k : Int)) (hk : k < MAX_DIRS_IN_ROOT)
    (hlook : disk_offset_of_dir_loop root name k 0 = .ok 0)
    (hloop : find_free_block_loop fuel bitmap (BITMAP_LAST - 1) 1 = .ok (b, bm1))
    (hb : b ≠ 0) :
    ∃ img1, cs1550_mkdir fuel new_dir (47 :: name) (some (imageOf root m bitmap))
      = .ok (0, some img1) := by
  have hBS : BLOCK_SIZE = 512 := rfl
  have hB : BITMAP_LAST = 2559 := rfl
  have hname : ∀ c ∈ name, c ≠ 0 := fun c hc => (hv.2 c hc).1
  obtain ⟨hb8, hbmax⟩ := find_free_block_loop_bounds _ _ _ _ hloop hb
  obtain ⟨root1, hadd, _⟩ := root_add_entry_spec root name b k hr hn hk hname hl
    (by omega) (by rw [hB] at hbmax; push_cast at hbmax; omega)
  have hlen := imageOf_length root m bitmap hr hbm
  refine ⟨_, cs1550_mkdir_add fuel new_dir name (imageOf root m bitmap) b bm1 root1 hv hl
    (by rw [hlen]; have : (m + 6) * BLOCK_SIZE = m * BLOCK_SIZE + 6 * BLOCK_SIZE := by ring
        omega)
    (by rw [imageOf_root root m bitmap hr, hn, Int.toNat_ofNat]; exact hlook)
    (by rw [imageOf_bitmap root m bitmap hr hbm]; exact hloop)
    hb (by rw [imageOf_root root m bitmap hr]; exact hadd) hnd⟩

theorem find_free_block_loop_zeroBitmap (fuel : Nat) (hf : 8 ≤ fuel) :
    find_free_block_loop fuel zeroBitmap (BITMAP_LAST - 1) 1 = .ok (8, zeroBitmap.set 1 1) :=
  find_free_block_loop_zero fuel hf zeroBitmap rfl

/-! ### Directory creation on concrete images -/

theorem validName_a : validName [97] := ⟨by decide, by decide⟩

theorem validName_b : validName [98] := ⟨by decide, by decide⟩

/-- C1, counterexample: the 64-block image whose root lists `"a"` once, at start
block 0.  `cs1550_mkdir("/a")` returns 0 (it appends a second `"a"`), yet
`cs1550_getattr("/a")` on the resulting image returns `-ENOENT`: the lookup stops at
the first `"a"` and reads its start block 0 as "not found". -/
theorem mkdir_success_getattr_enoent :
    ∃ img1, cs1550_mkdir 8 zeroRoot [47, 97] (some (imageOf (rootWith 97 0) 58 zeroBitmap))
        = .ok (0, some img1)
      ∧ cs1550_getattr [47, 97] (some img1)
        = .ok (-ENOENT, { st_mode := 0, st_nlink := 0, st_size := 0 }) := by
  have hr := rootWith_length 97 0
  obtain ⟨img1, hmk⟩ := cs1550_mkdir_imageOf 8 zeroRoot [97] (rootWith 97 0) 58 zeroBitmap 1
    8 _ validName_a (by decide) zeroRoot_length hr zeroBitmap_length (by decide) (by decide)
    (by decide) (find_free_block_loop_zeroBitmap 8 (le_refl _)) (by decide)
  refine ⟨img1, hmk, ?_⟩
  obtain ⟨k, b, hk, _, _, hlen1, hn, _, hn1, hold, _, _, _, _⟩ :=
    cs1550_mkdir_root 8 _ [97] _ img1 validName_a (by decide) hmk
  rw [imageOf_root _ _ _ hr] at hn hold
  have hk1 : k = 1 := by
    have h1 : root_nDirectories (rootWith 97 0) = 1 := by decide
    rw [h1] at hn
    exact_mod_cast hn.symm
  subst hk1
  obtain ⟨hd, hs⟩ := hold 0 (by omega)
  have hcount : (root_nDirectories (readAt img1 0 BLOCK_SIZE)).toNat = 1 + 1 := by
    rw [hn1]; rfl
  have hd0 : cstr [97] = cstr (root_dname (rootWith 97 0) 0) := by decide
  have hs0 : root_nStartBlock (rootWith 97 0) 0 = 0 := by decide
  rw [cs1550_getattr_dir [97] img1 validName_a (by decide),
    disk_offset_of_dir_open img1 [97] hlen1, hcount, disk_offset_of_dir_loop,
    if_neg (by decide), hd, if_pos hd0, hs, hs0]
  rfl

/-- C2, counterexample: the 64-block image whose root lists `"b"` once, at start
block 0.  The name is present in the root table, yet `cs1550_mkdir("/b")` returns 0,
not `-EEXIST`, and the entry count of the image goes from 1 to 2. -/
theorem mkdir_present_name_not_eexist :
    present (imageOf (rootWith 98 0) 58 zeroBitmap) [98]
      ∧ root_nDirectories (readAt (imageOf (rootWith 98 0) 58 zeroBitmap) 0 BLOCK_SIZE) = 1
      ∧ ∃ img1, cs1550_mkdir 8 zeroRoot [47, 98]
            (some (imageOf (rootWith 98 0) 58 zeroBitmap)) = .ok (0, some img1)
          ∧ root_nDirectories (readAt img1 0 BLOCK_SIZE) = 2 := by
  have hr := rootWith_length 98 0
  have h1 : root_nDirectories (rootWith 98 0) = 1 := by decide
  obtain ⟨img1, hmk⟩ := cs1550_mkdir_imageOf 8 zeroRoot [98] (rootWith 98 0) 58 zeroBitmap 1
    8 _ validName_b (by decide) zeroRoot_length hr zeroBitmap_length (by decide) (by decide)
    (by decide) (find_free_block_loop_zeroBitmap 8 (le_refl _)) (by decide)
  obtain ⟨k, b, hk, _, _, hlen1, hn, _, hn1, _⟩ :=
    cs1550_mkdir_root 8 _ [98] _ img1 validName_b (by decide) hmk
  rw [imageOf_root _ _ _ hr, h1] at hn
  have hk1 : k = 1 := by exact_mod_cast hn.symm
  subst hk1
  refine ⟨⟨0, ?_, by decide, ?_⟩, by rw [imageOf_root _ _ _ hr, h1], img1, hmk, by rw [hn1]; rfl⟩
  · rw [imageOf_root _ _ _ hr, h1]; decide
  · rw [imageOf_root _ _ _ hr]; decide

/-- C1, instance: on a zeroed 64-block image, `cs1550_mkdir("/a")` returns 0 and
`cs1550_getattr("/a")` then reports a directory. -/
theorem mkdir_then_getattr_reports_directory_witness :
    validName [97] ∧ [97].length ≤ MAX_FILENAME
      ∧ ¬ staleEntry (imageOf zeroRoot 58 zeroBitmap) [97]
      ∧ ∃ d1, cs1550_mkdir 8 zeroRoot [47, 97]
            (some (imageOf zeroRoot 58 zeroBitmap)) = .ok (0, d1)
          ∧ cs1550_getattr [47, 97] d1
            = .ok (0, { st_mode := S_IFDIR ||| 0o755, st_nlink := 2, st_size := 0 }) := by
  have hr := zeroRoot_length
  have h0 : root_nDirectories zeroRoot = 0 := by decide
  have hst : ¬ staleEntry (imageOf zeroRoot 58 zeroBitmap) [97] := by
    rintro ⟨j, hj, _⟩
    rw [imageOf_root _ _ _ hr, h0] at hj
    omega
  obtain ⟨img1, hmk⟩ := cs1550_mkdir_imageOf 8 zeroRoot [97] zeroRoot 58 zeroBitmap 0
    8 _ validName_a (by decide) hr hr zeroBitmap_length h0 (by decide) rfl
    (find_free_block_loop_zeroBitmap 8 (le_refl _)) (by decide)
  exact ⟨validName_a, by decide, hst, some img1, hmk,
    mkdir_then_getattr_reports_directory 8 zeroRoot [97]
      (imageOf zeroRoot 58 zeroBitmap) (some img1) validName_a (by decide) hst hmk⟩

/-- C2, instance: on the 64-block image whose root lists `"a"` at start block 8,
`cs1550_mkdir("/a")` returns `-EEXIST` and the image is unchanged. -/
theorem mkdir_existing_name_eexist_witness :
    validName [97] ∧ [97].length ≤ MAX_FILENAME
      ∧ BLOCK_SIZE ≤ (imageOf (rootWith 97 8) 58 zeroBitmap).length
      ∧ present (imageOf (rootWith 97 8) 58 zeroBitmap) [97]
      ∧ ¬ staleEntry (imageOf (rootWith 97 8) 58 zeroBitmap) [97]
      ∧ cs1550_mkdir 8 zeroRoot [47, 97] (some (imageOf (rootWith 97 8) 58 zeroBitmap))
          = .ok (-EEXIST, some (imageOf (rootWith 97 8) 58 zeroBitmap)) := by
  have hr := rootWith_length 97 8
  have h1 : root_nDirectories (rootWith 97 8) = 1 := by decide
  have hlen : BLOCK_SIZE ≤ (imageOf (rootWith 97 8) 58 zeroBitmap).length := by
    rw [imageOf_length _ _ _ hr zeroBitmap_length]; omega
  have hp : present (imageOf (rootWith 97 8) 58 zeroBitmap) [97] := by
    refine ⟨0, ?_, by decide, ?_⟩
    · rw [imageOf_root _ _ _ hr, h1]; decide
    · rw [imageOf_root _ _ _ hr]; decide
  have hst : ¬ staleEntry (imageOf (rootWith 97 8) 58 zeroBitmap) [97] := by
    rintro ⟨j, hj, _, _, hz⟩
    rw [imageOf_root _ _ _ hr] at hj hz
    rw [h1] at hj
    have hj0 : j = 0 := by omega
    subst hj0
    revert hz
    decide
  exact ⟨validName_a, by decide, hlen, hp, hst,
    mkdir_existing_name_eexist 8 zeroRoot [97] (imageOf (rootWith 97 8) 58 zeroBitmap)
      validName_a (by decide) hlen hp hst⟩

/-! ### The allocator in terms of blocks -/

theorem find_free_block_loop_full (fuel : Nat) (bitmap : List Nat) :
    ∀ (k i : Nat), (∀ j, i ≤ j → j < i + k → bitmap.getD j 0 = 255) →
      find_free_block_loop fuel bitmap k i = .ok (0, bitmap) := by
  intro k
  induction k with
  | zero => intro i _; rfl
  | succ k ih =>
    intro i h
    rw [find_free_block_loop, h i (le_refl _) (by omega), if_neg (by omega)]
    exact ih (i + 1) (fun j h1 h2 => h j (by omega) (by omega))

theorem find_free_block_gap (fuel : Nat) (fd : FILE) (bitmap : List Nat)
    (h : bitmap.getD 1 0 = 2) : find_free_block fuel fd bitmap = .error .timeout := by
  have hB : BITMAP_LAST - 1 = 2557 + 1 := rfl
  have hm : (2 + 1) % 256 = 3 := rfl
  unfold find_free_block
  rw [hB, find_free_block_loop, h, if_pos (by omega), hm]
  dsimp only
  rw [bitSearch_three]

theorem lastByteBitmap_getD (j : Nat) (hj : j < 5 * BLOCK_SIZE - 1) :
    lastByteBitmap.getD j 0 = 255 := by
  unfold lastByteBitmap
  rw [List.getD_eq_getElem?_getD, List.getElem?_append_left (by simpa using hj),
    List.getElem?_replicate, if_pos hj]
  rfl

/-- C8, counterexample: three bitmaps with a free block of index at least 1 on
which `find_free_block` does not return the lowest such block.  On the all-zero
bitmap block 1 is free and block 8 is returned; on a bitmap whose byte 1 is 2
block 8 is free and no fuel suffices for a result; on a bitmap whose only
non-full byte is the last one block 20472 is free and 0 is returned. -/
theorem find_free_block_not_lowest_free :
    (blockUsed zeroBitmap 1 = false
      ∧ ∃ bitmap1 fd1, find_free_block 8 { data := [], pos := 0 } zeroBitmap
          = .ok (8, bitmap1, fd1))
    ∧ (blockUsed gapBitmap 8 = false
      ∧ ∀ fuel, find_free_block fuel { data := [], pos := 0 } gapBitmap = .error .timeout)
    ∧ (blockUsed lastByteBitmap 20472 = false
      ∧ ∃ fd1, find_free_block 8 { data := [], pos := 0 } lastByteBitmap
          = .ok (0, lastByteBitmap, fd1)) := by
  refine ⟨⟨rfl, _, _, find_free_block_eq 8 _ zeroBitmap 8 _
    (find_free_block_loop_zeroBitmap 8 (le_refl _))⟩, ⟨rfl, fun fuel =>
      find_free_block_gap fuel _ gapBitmap rfl⟩, ?_, _, find_free_block_eq 8 _ lastByteBitmap 0 _
        (find_free_block_loop_full 8 lastByteBitmap _ _ (fun j _ h2 =>
          lastByteBitmap_getD j (by
            have : BITMAP_LAST = 5 * BLOCK_SIZE - 1 := rfl
            omega)))⟩
  have hdiv : 20472 / 8 = 5 * BLOCK_SIZE - 1 := rfl
  have hlast : lastByteBitmap.getD (5 * BLOCK_SIZE - 1) 0 = 0 := by
    unfold lastByteBitmap
    rw [List.getD_eq_getElem?_getD,
      List.getElem?_append_right (by rw [List.length_replicate]), List.length_replicate,
      Nat.sub_self]
    rfl
  unfold blockUsed
  rw [hdiv, hlast]
  rfl

/-- C8 (amended): for every 2560-byte bitmap whose bytes all have the form
`2^k - 1`: when one of the blocks 8 .. 20471 (bytes 1 .. 2558) is free,
`find_free_block` returns the lowest-indexed free block among them, and the
bitmap it leaves (and writes to the stream) differs from the input in exactly
that block's bit, which is now set; when none of them is free it returns 0 and
the bitmap is unchanged. -/
theorem find_free_block_lowest_free_from_8 (fuel : Nat) (fd : FILE) (bitmap : List Nat)
    (hf : 8 ≤ fuel) (hlen : bitmap.length = 5 * BLOCK_SIZE)
    (hcan : ∀ x ∈ bitmap, canonical x) :
    ((∃ b, 8 ≤ b ∧ b < 8 * BITMAP_LAST ∧ blockUsed bitmap b = false) →
      ∃ b bitmap1, 8 ≤ b ∧ b < 8 * BITMAP_LAST ∧ blockUsed bitmap b = false
        ∧ (∀ c, 8 ≤ c → c < b → blockUsed bitmap c = true)
        ∧ find_free_block fuel fd bitmap = .ok ((b : Int), bitmap1, (fwrite bitmap1 fd).2)
        ∧ bitmap1.length = 5 * BLOCK_SIZE
        ∧ ∀ c, blockUsed bitmap1 c = (decide (c = b) || blockUsed bitmap c))
    ∧ ((∀ b, 8 ≤ b → b < 8 * BITMAP_LAST → blockUsed bitmap b = true) →
      find_free_block fuel fd bitmap = .ok (0, bitmap, (fwrite bitmap fd).2)) := by
  rcases find_free_block_blocks fuel fd bitmap hf hlen hcan with
    ⟨hall, hres⟩ | ⟨b, bitmap1, h1, h2, h3, h4, h5, h6, h7⟩
  · refine ⟨fun ⟨b, hb1, hb2, hb3⟩ => ?_, fun _ => hres⟩
    rw [hall b hb1 hb2] at hb3
    cases hb3
  · refine ⟨fun _ => ⟨b, bitmap1, h1, h2, h3, h4, h5, h6, h7⟩, fun hall => ?_⟩
    rw [hall b h1 h2] at h3
    cases h3

theorem zeroBitmap_canonical : ∀ x ∈ zeroBitmap, canonical x := by
  intro x hx
  rw [List.eq_of_mem_replicate hx]
  exact ⟨0, by omega, rfl⟩

/-- C8, instance: on the all-zero bitmap block 8 is the lowest free block from
8 on, and it is the one taken. -/
theorem find_free_block_lowest_free_from_8_witness :
    (8 ≤ 8) ∧ zeroBitmap.length = 5 * BLOCK_SIZE ∧ (∀ x ∈ zeroBitmap, canonical x)
      ∧ ∃ b bitmap1, blockUsed zeroBitmap b = false
          ∧ find_free_block 8 { data := [], pos := 0 } zeroBitmap
            = .ok ((b : Int), bitmap1, (fwrite bitmap1 { data := [], pos := 0 }).2)
          ∧ ∀ c, blockUsed bitmap1 c = (decide (c = b) || blockUsed zeroBitmap c) := by
  obtain ⟨b, bitmap1, _, _, h3, _, h5, _, h7⟩ :=
    (find_free_block_lowest_free_from_8 8 { data := [], pos := 0 } zeroBitmap (le_refl _)
      zeroBitmap_length zeroBitmap_canonical).1 ⟨8, le_refl _, by decide, rfl⟩
  exact ⟨le_refl _, zeroBitmap_length, zeroBitmap_canonical, b, bitmap1, h3, h5, h7⟩

/-! ### The range of the allocator, and its invariant -/

/-- C9, counterexample: the zeroed image of N = 10 blocks, whose bitmap occupies
blocks 5 .. 9.  The call of `find_free_block` that `disk_add_dir` makes (after its
`fseek` and `fread` of the last five blocks) returns block 8, one of the
bitmap's own blocks and above N - 6 = 4; `cs1550_mkdir("/a")` records it as the start
block of the new directory. -/
theorem allocator_returns_block_above_bound :
    (imageOf zeroRoot 4 zeroBitmap).length = 10 * BLOCK_SIZE
    ∧ (∃ bitmap1 fd3,
        find_free_block 8
          (fread (5 * BLOCK_SIZE) (fseek_END (-(5 * BLOCK_SIZE : Nat))
            { data := imageOf zeroRoot 4 zeroBitmap, pos := BLOCK_SIZE }).2).2
          (fread (5 * BLOCK_SIZE) (fseek_END (-(5 * BLOCK_SIZE : Nat))
            { data := imageOf zeroRoot 4 zeroBitmap, pos := BLOCK_SIZE }).2).1
          = .ok (8, bitmap1, fd3))
    ∧ (∃ img1, cs1550_mkdir 8 zeroRoot [47, 97] (some (imageOf zeroRoot 4 zeroBitmap))
          = .ok (0, some img1)
        ∧ root_nStartBlock (readAt img1 0 BLOCK_SIZE) 0 = 8)
    ∧ ¬ ((8 : Int) ≤ 10 - 6) := by
  have hr := zeroRoot_length
  have hlen := imageOf_length zeroRoot 4 zeroBitmap hr zeroBitmap_length
  have hbm := imageOf_bitmap zeroRoot 4 zeroBitmap hr zeroBitmap_length
  have h0 : root_nDirectories zeroRoot = 0 := by decide
  refine ⟨hlen, ?_, ?_, by decide⟩
  · have hlt : ¬ (imageOf zeroRoot 4 zeroBitmap).length < 5 * BLOCK_SIZE := by
      rw [hlen]; omega
    rw [fseek_END_bitmap, if_neg hlt, fread_eq]
    dsimp only
    rw [hbm]
    exact ⟨_, _, find_free_block_eq 8 _ zeroBitmap 8 _
      (find_free_block_loop_zeroBitmap 8 (le_refl _))⟩
  · obtain ⟨img1, hmk⟩ := cs1550_mkdir_imageOf 8 zeroRoot [97] zeroRoot 4 zeroBitmap 0
      8 _ validName_a (by decide) hr hr zeroBitmap_length h0 (by decide) rfl
      (find_free_block_loop_zeroBitmap 8 (le_refl _)) (by decide)
    refine ⟨img1, hmk, ?_⟩
    obtain ⟨k, b, _, _, _, _, hn, _, _, _, _, hblk, _, bm1, hloop⟩ :=
      cs1550_mkdir_root 8 _ [97] _ img1 validName_a (by decide) hmk
    rw [imageOf_root _ _ _ hr, h0] at hn
    have hk0 : k = 0 := by exact_mod_cast hn.symm
    subst hk0
    rw [hbm, find_free_block_loop_zeroBitmap 8 (le_refl _)] at hloop
    have hb : (8 : Int) = b := (Prod.mk.inj (Except.ok.inj hloop)).1
    rw [hblk, ← hb]

/-- C9 (amended): whatever the stream and the bitmap (so for every image size N),
a block index that `find_free_block` returns is 0 ("none found") or lies in
8 .. 20471: the allocator never hands out the root block 0 (nor blocks 1 .. 7),
and its upper bound is the fixed 8 * BITMAP_LAST - 1, not N - 6. -/
theorem find_free_block_result_range (fuel : Nat) (fd : FILE) (bitmap : List Nat) (ret : Int)
    (bitmap1 : List Nat) (fd1 : FILE)
    (h : find_free_block fuel fd bitmap = .ok (ret, bitmap1, fd1)) :
    ret = 0 ∨ (8 ≤ ret ∧ ret ≤ 8 * (BITMAP_LAST : Int) - 1) := by
  obtain ⟨hl, _⟩ := find_free_block_inv fuel fd bitmap ret bitmap1 fd1 h
  by_cases h0 : ret = 0
  · exact Or.inl h0
  · exact Or.inr (find_free_block_loop_bounds fuel bitmap ret bitmap1 hl h0)

/-- C9, instance: the block taken from the all-zero bitmap is 8. -/
theorem find_free_block_result_range_witness :
    find_free_block 8 { data := [], pos := 0 } zeroBitmap
        = .ok (8, zeroBitmap.set 1 1, (fwrite (zeroBitmap.set 1 1) { data := [], pos := 0 }).2)
      ∧ ((8 : Int) = 0 ∨ ((8 : Int) ≤ 8 ∧ (8 : Int) ≤ 8 * (BITMAP_LAST : Int) - 1)) :=
  ⟨find_free_block_eq 8 _ zeroBitmap 8 _ (find_free_block_loop_zeroBitmap 8 (le_refl _)),
    find_free_block_result_range 8 { data := [], pos := 0 } zeroBitmap 8 _ _
      (find_free_block_eq 8 _ zeroBitmap 8 _ (find_free_block_loop_zeroBitmap 8 (le_refl _)))⟩

theorem find_free_block_total (fuel : Nat) (fd : FILE) (bitmap : List Nat) (hf : 8 ≤ fuel)
    (hcan : ∀ x ∈ bitmap, canonical x) :
    ∃ ret bitmap1 fd1, find_free_block fuel fd bitmap = .ok (ret, bitmap1, fd1) := by
  rcases find_free_block_loop_spec fuel hf bitmap hcan (BITMAP_LAST - 1) 1 with
    ⟨_, hres⟩ | ⟨j, m, _, _, _, _, _, h6⟩
  · exact ⟨_, _, _, find_free_block_eq fuel fd bitmap _ _ hres⟩
  · exact ⟨_, _, _, find_free_block_eq fuel fd bitmap _ _ h6⟩

/-- C10: if every byte of the bitmap has the form `2^k - 1` with `k ≤ 8`, then
(with fuel for the 8 positions of the shifting counter) the inner bit-search
loop of `find_free_block` stops for every byte that is not full, `find_free_block`
returns, and the bitmap it leaves again has every byte of that form; hence
every bitmap reachable from the all-zero one by repeated allocation has that
form and every allocation on it returns.  For the byte 2, which is not of
that form, the inner loop does not stop, whatever the fuel. -/
theorem find_free_block_canonical_invariant (fuel : Nat) (fd : FILE) (bitmap : List Nat)
    (hf : 8 ≤ fuel) (hcan : ∀ x ∈ bitmap, canonical x) :
    (∀ x ∈ bitmap, x < 255 → ∃ r, bitSearch ((x + 1) % 256) fuel 128 7 = .ok r)
    ∧ (∃ ret bitmap1 fd1, find_free_block fuel fd bitmap = .ok (ret, bitmap1, fd1)
        ∧ ∀ x ∈ bitmap1, canonical x)
    ∧ (∀ reached, Reachable reached →
        (∀ x ∈ reached, canonical x)
        ∧ ∃ ret bitmap1 fd1, find_free_block fuel fd reached = .ok (ret, bitmap1, fd1))
    ∧ (∀ anyFuel, bitSearch ((2 + 1) % 256) anyFuel 128 7 = .error .timeout) := by
  refine ⟨fun x hx hlt => ?_, ?_, fun reached hr => ?_, fun anyFuel => bitSearch_three anyFuel⟩
  · obtain ⟨m, hm, rfl⟩ := hcan x hx
    have hm7 : m ≤ 7 := by
      rcases Nat.lt_or_ge m 8 with h | h
      · omega
      · have : m = 8 := by omega
        subst this; simp at hlt
    rw [(canonical_step m hm7).2.1]
    exact ⟨_, bitSearch_pow m hm7 fuel hf⟩
  · obtain ⟨ret, bitmap1, fd1, h⟩ := find_free_block_total fuel fd bitmap hf hcan
    exact ⟨ret, bitmap1, fd1, h, find_free_block_keeps_canonical _ _ _ _ _ _ h hcan⟩
  · have hc := reachable_canonical reached hr
    exact ⟨hc, find_free_block_total fuel fd reached hf hc⟩

/-- C10, instance: the all-zero bitmap, with fuel 8. -/
theorem find_free_block_canonical_invariant_witness :
    (8 ≤ 8) ∧ (∀ x ∈ zeroBitmap, canonical x)
      ∧ ∃ ret bitmap1 fd1, find_free_block 8 { data := [], pos := 0 } zeroBitmap
          = .ok (ret, bitmap1, fd1) ∧ ∀ x ∈ bitmap1, canonical x :=
  ⟨le_refl _, zeroBitmap_canonical,
    (find_free_block_canonical_invariant 8 { data := [], pos := 0 } zeroBitmap (le_refl _)
      zeroBitmap_canonical).2.1⟩

/-! ### Over-long and nested paths -/

/-- The first buffer after parsing `"/d"` or `"/d/..."`. -/
theorem parsing_dname (d tail : List Nat) (hv : validName d)
    (ht : tail = [] ∨ ∃ t, tail = 47 :: t) : (parsing (47 :: d ++ tail)).1 = d := by
  rcases ht with rfl | ⟨t, rfl⟩
  · rw [List.append_nil, parsing_dir d hv]
  · exact (parsing_nested d t hv).1

theorem cstr_path_ne_root (d tail : List Nat) (hv : validName d) :
    cstr (47 :: d ++ tail) ≠ [47] := by
  obtain ⟨hne, hc⟩ := hv
  cases d with
  | nil => exact absurd rfl hne
  | cons a r =>
    have ha : a ≠ 0 := (hc a (List.mem_cons_self _ _)).1
    unfold cstr
    simp [List.takeWhile_cons, ha]

theorem cs1550_mkdir_long_dname (fuel : Nat) (new_dir d tail : List Nat)
    (disk : Option (List Nat)) (hv : validName d) (hd : d.getD MAX_FILENAME 0 ≠ 0)
    (ht : tail = [] ∨ ∃ t, tail = 47 :: t) :
    cs1550_mkdir fuel new_dir (47 :: d ++ tail) disk = .ok (-ENAMETOOLONG, disk) := by
  unfold cs1550_mkdir
  dsimp only
  rw [parsing_dname d tail hv ht, if_pos hd]

theorem cs1550_getattr_long_dname (d tail : List Nat) (disk : Option (List Nat))
    (hv : validName d) (hd : d.getD MAX_FILENAME 0 ≠ 0)
    (ht : tail = [] ∨ ∃ t, tail = 47 :: t) :
    cs1550_getattr (47 :: d ++ tail) disk
      = .ok (-ENOENT, { st_mode := 0, st_nlink := 0, st_size := 0 }) := by
  unfold cs1550_getattr
  dsimp only
  rw [if_neg (cstr_path_ne_root d tail hv), parsing_dname d tail hv ht,
    if_neg (fun h => hd h.2.1)]

theorem getD_of_length_nine (d : List Nat) (hd : d.length = MAX_FILENAME + 1)
    (hc : ∀ c ∈ d, c ≠ 0 ∧ c ≠ 47) : validName d ∧ d.getD MAX_FILENAME 0 ≠ 0 := by
  have h8 : MAX_FILENAME < d.length := by omega
  have hne : d ≠ [] := by
    intro h
    rw [h] at hd
    cases hd
  refine ⟨⟨hne, hc⟩, ?_⟩
  rw [List.getD_eq_getElem _ _ h8]
  exact (hc _ (List.getElem_mem h8)).1

/-- C6, counterexample: for the 9-character directory name `"abcdefghi"`,
`cs1550_getattr` returns `-ENOENT`, the very code it returns for a name that is not
found, not a distinct error. -/
theorem getattr_nine_char_name_is_enoent :
    cs1550_getattr [47, 97, 98, 99, 100, 101, 102, 103, 104, 105]
        (some (imageOf zeroRoot 58 zeroBitmap))
      = .ok (-ENOENT, { st_mode := 0, st_nlink := 0, st_size := 0 })
    ∧ cs1550_getattr [47, 122] (some (imageOf zeroRoot 58 zeroBitmap))
      = .ok (-ENOENT, { st_mode := 0, st_nlink := 0, st_size := 0 }) := by
  obtain ⟨hv, hd⟩ := getD_of_length_nine [97, 98, 99, 100, 101, 102, 103, 104, 105] rfl
    (by decide)
  refine ⟨cs1550_getattr_long_dname _ [] _ hv hd (Or.inl rfl), ?_⟩
  have hz : validName [122] := ⟨by decide, by decide⟩
  have hlen : BLOCK_SIZE ≤ (imageOf zeroRoot 58 zeroBitmap).length := by
    rw [imageOf_length _ _ _ zeroRoot_length zeroBitmap_length]; omega
  have h0 : root_nDirectories zeroRoot = 0 := by decide
  rw [cs1550_getattr_dir [122] _ hz (by decide), disk_offset_of_dir_open _ _ hlen,
    imageOf_root _ _ _ zeroRoot_length, h0]
  rfl

/-- C6 (amended): for every path whose directory-name component has exactly 9
characters, `cs1550_mkdir` returns `-ENAMETOOLONG` and `cs1550_getattr` returns
`-ENOENT` (its not-found code), both whatever the state of `.disk` is, even
when it cannot be opened, and `cs1550_mkdir` hands the state back as it was: no
block is read or written. -/
theorem nine_char_dname_rejected_before_io (fuel : Nat) (new_dir d tail : List Nat)
    (disk : Option (List Nat)) (hd : d.length = MAX_FILENAME + 1)
    (hc : ∀ c ∈ d, c ≠ 0 ∧ c ≠ 47) (ht : tail = [] ∨ ∃ t, tail = 47 :: t) :
    cs1550_mkdir fuel new_dir (47 :: d ++ tail) disk = .ok (-ENAMETOOLONG, disk)
    ∧ cs1550_getattr (47 :: d ++ tail) disk
      = .ok (-ENOENT, { st_mode := 0, st_nlink := 0, st_size := 0 }) := by
  obtain ⟨hv, h8⟩ := getD_of_length_nine d hd hc
  exact ⟨cs1550_mkdir_long_dname fuel new_dir d tail disk hv h8 ht,
    cs1550_getattr_long_dname d tail disk hv h8 ht⟩

/-- C6, instance: `"/abcdefghi"` with `.disk` absent. -/
theorem nine_char_dname_rejected_before_io_witness :
    [97, 98, 99, 100, 101, 102, 103, 104, 105].length = MAX_FILENAME + 1
      ∧ cs1550_mkdir 8 zeroRoot ([47, 97, 98, 99, 100, 101, 102, 103, 104, 105]) none
          = .ok (-ENAMETOOLONG, none)
      ∧ cs1550_getattr ([47, 97, 98, 99, 100, 101, 102, 103, 104, 105]) none
          = .ok (-ENOENT, { st_mode := 0, st_nlink := 0, st_size := 0 }) :=
  ⟨rfl, nine_char_dname_rejected_before_io 8 zeroRoot [97, 98, 99, 100, 101, 102, 103, 104, 105]
    [] none rfl (by decide) (Or.inl rfl)⟩

/-- Behaviour of `cs1550_mkdir` on `"/name/rest"` when `rest` starts with a byte other than `.`:
`-EPERM`, and the state of `.disk` is handed back as it was. -/
theorem cs1550_mkdir_nested_eperm (fuel : Nat) (new_dir name : List Nat) (c : Nat)
    (rest : List Nat) (disk : Option (List Nat)) (hv : validName name)
    (hl : name.length ≤ MAX_FILENAME) (hc0 : c ≠ 0) (hc : c ≠ 46) :
    cs1550_mkdir fuel new_dir (47 :: name ++ 47 :: c :: rest) disk = .ok (-EPERM, disk) := by
  obtain ⟨h1, h2⟩ := parsing_nested name (c :: rest) hv
  have hf : ((cstr (c :: rest)).takeWhile (fun c => decide (c ≠ 46))).getD 0 0 ≠ 0 := by
    unfold cstr
    simp [List.takeWhile_cons, hc0, hc]
  unfold cs1550_mkdir
  dsimp only
  rw [h1, h2, if_neg (by rw [getD_of_short name hl]; exact fun h => h rfl), if_pos hf]

/-- Behaviour of `cs1550_mkdir` on `"/name/.rest"`: `%[^.]` scans nothing, `fname` stays empty, and
the call does what `cs1550_mkdir("/name")` does. -/
theorem cs1550_mkdir_dot_component (fuel : Nat) (new_dir name rest : List Nat)
    (disk : Option (List Nat)) (hv : validName name) :
    cs1550_mkdir fuel new_dir (47 :: name ++ 47 :: 46 :: rest) disk
      = cs1550_mkdir fuel new_dir (47 :: name) disk := by
  obtain ⟨h1, h2⟩ := parsing_nested name (46 :: rest) hv
  have hf : (cstr (46 :: rest)).takeWhile (fun c => decide (c ≠ 46)) = [] := by
    unfold cstr
    simp [List.takeWhile_cons]
  unfold cs1550_mkdir
  dsimp only
  rw [h1, h2, hf, parsing_dir name hv]

/-- C7, at the failing input: `cs1550_mkdir("/a/.b")` on a zeroed 64-block image
returns 0, not `-EPERM`, and the root table of the resulting image holds one
directory, `"a"`. -/
theorem mkdir_dot_component_creates_directory :
    ∃ img1, cs1550_mkdir 8 zeroRoot [47, 97, 47, 46, 98] (some (imageOf zeroRoot 58 zeroBitmap))
        = .ok (0, some img1)
      ∧ root_nDirectories (readAt img1 0 BLOCK_SIZE) = 1
      ∧ cstr (root_dname (readAt img1 0 BLOCK_SIZE) 0) = [97] := by
  have hr := zeroRoot_length
  have h0 : root_nDirectories zeroRoot = 0 := by decide
  obtain ⟨img1, hmk⟩ := cs1550_mkdir_imageOf 8 zeroRoot [97] zeroRoot 58 zeroBitmap 0
    8 _ validName_a (by decide) hr hr zeroBitmap_length h0 (by decide) rfl
    (find_free_block_loop_zeroBitmap 8 (le_refl _)) (by decide)
  obtain ⟨k, b, _, _, _, _, hn, _, hn1, _, hname, _⟩ :=
    cs1550_mkdir_root 8 _ [97] _ img1 validName_a (by decide) hmk
  rw [imageOf_root _ _ _ hr, h0] at hn
  have hk0 : k = 0 := by exact_mod_cast hn.symm
  subst hk0
  refine ⟨img1, ?_, by rw [hn1]; rfl, hname⟩
  have := cs1550_mkdir_dot_component 8 zeroRoot [97] [98]
    (some (imageOf zeroRoot 58 zeroBitmap)) validName_a
  rw [List.cons_append, List.singleton_append] at this
  rw [this]
  exact hmk

/-! ### A full root table, and the block of a new directory -/

/-- Behaviour of `disk_add_dir` when the store into the root table faults. -/
theorem disk_add_dir_fault (fuel : Nat) (new_dir name img : List Nat) (p : Nat) (b : Int)
    (bm1 : List Nat) (e : Fault) (hlen : 5 * BLOCK_SIZE ≤ img.length)
    (hloop : find_free_block_loop fuel
      (readAt img (img.length - 5 * BLOCK_SIZE) (5 * BLOCK_SIZE)) (BITMAP_LAST - 1) 1
      = .ok (b, bm1))
    (hb : b ≠ 0)
    (hadd : root_add_entry (readAt img 0 BLOCK_SIZE) name b = .error e) :
    disk_add_dir fuel new_dir { data := img, pos := p } name = .error e := by
  have hBS : BLOCK_SIZE = 512 := rfl
  have hbl : (readAt img (img.length - 5 * BLOCK_SIZE) (5 * BLOCK_SIZE)).length
      = BITMAP_LAST + 1 := by
    rw [length_readAt]
    have : BITMAP_LAST + 1 = 5 * BLOCK_SIZE := rfl
    omega
  have hpos : img.length - 5 * BLOCK_SIZE
      + (readAt img (img.length - 5 * BLOCK_SIZE) (5 * BLOCK_SIZE)).length = img.length := by
    rw [hbl]
    have : BITMAP_LAST + 1 = 5 * BLOCK_SIZE := rfl
    omega
  have hrl : (readAt img 0 BLOCK_SIZE).length = BLOCK_SIZE := by
    rw [length_readAt]; omega
  have hroot : readAt (img ++ bm1) 0 BLOCK_SIZE = readAt img 0 BLOCK_SIZE :=
    readAt_append_left _ _ _ _ (by omega)
  have hff := find_free_block_eq fuel { data := img, pos := img.length } _ _ _ hloop
  rw [fwrite_eq, writeAt_end] at hff
  dsimp only at hff
  unfold disk_add_dir
  simp only [fseek_END_bitmap, if_neg (not_lt.mpr hlen)]
  rw [if_pos trivial, fread_eq]
  dsimp only
  rw [if_pos hbl, hpos, hff]
  dsimp only
  rw [if_pos hb, fseek_SET_nonneg 0 _ (le_refl 0)]
  dsimp only
  rw [if_pos rfl, fread_eq]
  dsimp only
  have hz : Int.toNat 0 = 0 := rfl
  rw [hz, hroot, if_pos hrl, hadd]

/-- Behaviour of `cs1550_mkdir("/name")` when the name is not found, a block is allocated, and the
store into the root table faults. -/
theorem cs1550_mkdir_fault (fuel : Nat) (new_dir name img : List Nat) (b : Int)
    (bm1 : List Nat) (e : Fault) (hv : validName name) (hl : name.length ≤ MAX_FILENAME)
    (hlen : 5 * BLOCK_SIZE ≤ img.length)
    (hlook : disk_offset_of_dir_loop (readAt img 0 BLOCK_SIZE) name
      (root_nDirectories (readAt img 0 BLOCK_SIZE)).toNat 0 = .ok 0)
    (hloop : find_free_block_loop fuel
      (readAt img (img.length - 5 * BLOCK_SIZE) (5 * BLOCK_SIZE)) (BITMAP_LAST - 1) 1
      = .ok (b, bm1))
    (hb : b ≠ 0)
    (hadd : root_add_entry (readAt img 0 BLOCK_SIZE) name b = .error e) :
    cs1550_mkdir fuel new_dir (47 :: name) (some img) = .error e := by
  have hBS : BLOCK_SIZE = 512 := rfl
  rw [cs1550_mkdir_dir fuel new_dir name img hv hl,
    disk_offset_of_dir_open img name (by omega), hlook]
  dsimp only
  rw [if_neg (fun h => h rfl),
    disk_add_dir_fault fuel new_dir name img BLOCK_SIZE b bm1 e hlen hloop hb hadd]

set_option maxRecDepth 10000 in
theorem fullRoot_length : fullRoot.length = BLOCK_SIZE := by decide

theorem fullBitmap_length : fullBitmap.length = 5 * BLOCK_SIZE := by
  rw [fullBitmap, List.length_append, List.length_replicate]
  rfl

theorem find_free_block_loop_fullBitmap :
    find_free_block_loop 8 fullBitmap (BITMAP_LAST - 1) 1 = .ok (37, fullBitmap.set 4 63) := by
  have hB : BITMAP_LAST - 1 = 2554 + 1 + 1 + 1 + 1 := rfl
  have h1 : fullBitmap.getD 1 0 = 255 := rfl
  have h2 : fullBitmap.getD (1 + 1) 0 = 255 := rfl
  have h3 : fullBitmap.getD (1 + 1 + 1) 0 = 255 := rfl
  have h4 : fullBitmap.getD (1 + 1 + 1 + 1) 0 = 31 := rfl
  have hs : bitSearch ((31 + 1) % 256) 8 128 7 = .ok 5 := by decide
  rw [hB, find_free_block_loop, h1, if_neg (by omega), find_free_block_loop, h2,
    if_neg (by omega), find_free_block_loop, h3, if_neg (by omega), find_free_block_loop, h4,
    if_pos (by omega)]
  dsimp only
  rw [hs]
  rfl

set_option maxRecDepth 10000 in
/-- C5, at the failing input: the root table of the image holds 29 directories
(`nDirectories = MAX_DIRS_IN_ROOT`) and `"n"` is not among them.  `cs1550_mkdir("/n")`
does not return an error code: it allocates block 37 and goes on to store the
new entry into `root.directories[29]`, outside the array. -/
theorem mkdir_full_table_overruns :
    root_nDirectories (readAt (imageOf fullRoot 58 fullBitmap) 0 BLOCK_SIZE)
        = (MAX_DIRS_IN_ROOT : Int)
    ∧ cs1550_mkdir 8 zeroRoot [47, 110] (some (imageOf fullRoot 58 fullBitmap))
        = .error .outOfBounds := by
  have hr := fullRoot_length
  have hlen := imageOf_length fullRoot 58 fullBitmap hr fullBitmap_length
  have hn : root_nDirectories fullRoot = 29 := by decide
  have hlook : disk_offset_of_dir_loop fullRoot [110] 29 0 = .ok 0 := by decide
  have hadd : root_add_entry fullRoot [110] 37 = .error .outOfBounds := by decide
  refine ⟨by rw [imageOf_root _ _ _ hr, hn]; rfl, ?_⟩
  exact cs1550_mkdir_fault 8 zeroRoot [110] _ 37 _ .outOfBounds ⟨by decide, by decide⟩
    (by decide) (by rw [hlen]; omega)
    (by rw [imageOf_root _ _ _ hr, hn]; exact hlook)
    (by rw [imageOf_bitmap _ _ _ hr fullBitmap_length]; exact find_free_block_loop_fullBitmap)
    (by decide) (by rw [imageOf_root _ _ _ hr]; exact hadd)

theorem junkDir_length : junkDir.length = BLOCK_SIZE := by
  rw [junkDir, List.length_append, List.length_replicate]
  rfl

/-- C4, at the failing input: `cs1550_mkdir("/a")` on a zeroed 64-block image, when the
stack bytes under the uninitialised `new_dir` are `junkDir`.  The call returns
0, the block of the new directory holds `nFiles = 1`, and `cs1550_readdir("/a")` on
the resulting image hands `filler` the file name `"x"` after `"."` and `".."`. -/
theorem new_directory_block_not_empty :
    ∃ img1, cs1550_mkdir 8 junkDir [47, 97] (some (imageOf zeroRoot 58 zeroBitmap))
        = .ok (0, some img1)
      ∧ subdir_nFiles (readAt img1 (8 * BLOCK_SIZE) BLOCK_SIZE) = 1
      ∧ cs1550_readdir [47, 97] (some img1) = .ok (0, [[46], [46, 46], [120]]) := by
  have hr := zeroRoot_length
  have h0 : root_nDirectories zeroRoot = 0 := by decide
  have hzb := imageOf_bitmap zeroRoot 58 zeroBitmap hr zeroBitmap_length
  obtain ⟨img1, hmk⟩ := cs1550_mkdir_imageOf 8 junkDir [97] zeroRoot 58 zeroBitmap 0
    8 _ validName_a (by decide) junkDir_length hr zeroBitmap_length h0 (by decide) rfl
    (find_free_block_loop_zeroBitmap 8 (le_refl _)) (by decide)
  obtain ⟨k, b, hk, _, _, hlen1, hn, _, hn1, hold, hname, hblk, hnew, bm1, hloop⟩ :=
    cs1550_mkdir_root 8 _ [97] _ img1 validName_a (by decide) hmk
  rw [imageOf_root _ _ _ hr, h0] at hn
  have hk0 : k = 0 := by exact_mod_cast hn.symm
  subst hk0
  rw [hzb, find_free_block_loop_zeroBitmap 8 (le_refl _)] at hloop
  have hb : (8 : Int) = b := (Prod.mk.inj (Except.ok.inj hloop)).1
  subst hb
  have hoff : ((8 : Int) * (BLOCK_SIZE : Int)).toNat = 8 * BLOCK_SIZE := rfl
  rw [hoff] at hnew
  have hfound := disk_offset_of_dir_loop_found (readAt img1 0 BLOCK_SIZE) [97]
    (by decide) 0 hk (fun j hj => by omega) hname 0 0 rfl 0
  have hcount : (root_nDirectories (readAt img1 0 BLOCK_SIZE)).toNat = 0 + 1 + 0 := by
    rw [hn1]; rfl
  have hfiles : readdir_files_loop junkDir (subdir_nFiles junkDir).toNat 0 = .ok [[120]] := by
    decide
  refine ⟨img1, hmk, by rw [hnew]; decide, ?_⟩
  unfold cs1550_readdir
  dsimp only
  rw [if_pos (by decide), if_pos (by decide)]
  simp only [fopen, Option.map_some']
  rw [disk_offset_of_dir_open img1 _ hlen1]
  have hp : (parsing [47, 97]).1 = [97] := by decide
  rw [hp, hcount, hfound, hblk]
  dsimp only
  have hbo : blockByteOffset 8 = .ok 4096 := by decide
  rw [if_pos (by decide), hbo]
  dsimp only
  rw [fseek_SET_nonneg _ _ (by decide)]
  dsimp only
  rw [if_pos rfl, fread_eq]
  dsimp only
  have h4096 : Int.toNat 4096 = 8 * BLOCK_SIZE := rfl
  rw [h4096, hnew, if_pos junkDir_length, hfiles]
  rfl

/-! ### File contents -/

theorem fileDir_length : fileDir.length = BLOCK_SIZE := by
  rw [fileDir, List.length_append, List.length_replicate]
  rfl

theorem fileImage_root : readAt fileImage 0 BLOCK_SIZE = rootWith 100 8 := by
  have hr := rootWith_length 100 8
  unfold fileImage
  rw [List.append_assoc, List.append_assoc, List.append_assoc,
    readAt_append_left _ _ _ _ (by omega), ← hr, readAt_full]

theorem fileImage_block8 : readAt fileImage (8 * BLOCK_SIZE) BLOCK_SIZE = fileDir := by
  have hr := rootWith_length 100 8
  have hx : (rootWith 100 8 ++ List.replicate (7 * BLOCK_SIZE) 0).length = 8 * BLOCK_SIZE := by
    rw [List.length_append, List.length_replicate, hr]; omega
  have h2 := readAt_append_right (rootWith 100 8 ++ List.replicate (7 * BLOCK_SIZE) 0) fileDir
  rw [hx, fileDir_length] at h2
  unfold fileImage
  rw [List.append_assoc _ (List.replicate (50 * BLOCK_SIZE) 0),
    readAt_append_left _ _ _ _ (by rw [List.length_append, hx, fileDir_length])]
  exact h2

theorem fileImage_length : BLOCK_SIZE ≤ fileImage.length := by
  have hr := rootWith_length 100 8
  unfold fileImage
  rw [List.length_append, List.length_append, List.length_append, List.length_append, hr]
  omega

/-- C3, at the failing input: the image holds the file `/d/f` (size 0), as
`cs1550_getattr` confirms.  `cs1550_write("/d/f", "Hi", 2, 0)` returns 2 and leaves `.disk`
as it was; `cs1550_read("/d/f", buf, 2, 0)` on that state returns 0 and leaves `buf` as it
was, so the two bytes written are not what is read. -/
theorem write_then_read_returns_nothing :
    cs1550_getattr [47, 100, 47, 102] (some fileImage)
        = .ok (0, { st_mode := S_IFREG ||| 0o666, st_nlink := 1, st_size := 0 })
    ∧ cs1550_write [47, 100, 47, 102] [72, 105] 2 0 (some fileImage) = (2, some fileImage)
    ∧ cs1550_read [47, 100, 47, 102] [0, 0] 2 0
        (cs1550_write [47, 100, 47, 102] [72, 105] 2 0 (some fileImage)).2 = (0, [0, 0]) := by
  refine ⟨?_, rfl, rfl⟩
  have hp : parsing [47, 100, 47, 102] = ([100], [102], []) := by decide
  have hlook : disk_offset_of_dir_loop (rootWith 100 8) [100]
      (root_nDirectories (rootWith 100 8)).toNat 0 = .ok 8 := by decide
  have hbo : blockByteOffset 8 = .ok 4096 := by decide
  have h4096 : Int.toNat 4096 = 8 * BLOCK_SIZE := rfl
  have hfile : disk_offset_of_file_ext fileDir [102] [] 0 = .ok (9, 0) := by decide
  have hsize : file_fsize fileDir 0 = 0 := by decide
  unfold cs1550_getattr
  dsimp only
  rw [if_neg (by decide), hp]
  dsimp only
  rw [if_pos (by decide)]
  simp only [fopen, Option.map_some']
  rw [disk_offset_of_dir_open fileImage _ fileImage_length, fileImage_root, hlook]
  dsimp only
  rw [if_pos (by decide), if_neg (by decide), hbo]
  dsimp only
  rw [fseek_SET_nonneg _ _ (by decide)]
  dsimp only
  rw [if_pos rfl, fread_eq]
  dsimp only
  rw [h4096, fileImage_block8, if_pos fileDir_length, hfile]
  dsimp only
  rw [if_pos (by decide), hsize]

end CS1550
